import Mathlib

/-! # SAM writer (`include/common/sam.hpp`)

A shallow embedding of the two `write_sam` overloads of `sam.hpp` and of the
record type `sam_t`, followed by theorems about the text they write.

Conventions of the embedding.

* A C string (`char *`, or `std::string` seen through `c_str()`) is the list of
  its characters before the terminating NUL; a null `char *` is `none`.
* The output stream `FILE *out` is write-only, so a call is modelled by the
  text it appends to the stream.  A call that dereferences a null `read`
  has no defined output: `none`.
* `size_t` values are naturals (below `2 ^ 64` on the target), `int32_t`,
  `int8_t` and `long long` values are integers; `size_t` additions wrap
  modulo `2 ^ 64` (`to_size_t`).
* `fprintf` with `%d` consumes an `int`.  Every numeric argument of the
  writer goes through `%d`, whatever its type, so what is printed is the
  low 32 bits of the argument read as a two's complement `int` (`fmt_d`).
* The mapping quality of the raw-parameter form is computed in `double`
  with the `log` of the C library; the embedding evaluates the same
  expression in exact real arithmetic (`mapq_double`) and takes its integer
  part (`double_to_uint32`).  What floating point may compute instead is
  described by `double_eval`, operation by operation; for 32-bit scores with
  `0 < score2 < 2 * score` every such evaluation, the exact one among them, is
  within `10 ^ -5` of the exact value (`double_eval_near_wide`), so the integer
  parts can differ only where the exact value is that close to an integer.
  Theorems that name the MAPQ value are stated for the evaluations
  `double_eval` admits and pin the value where the exact one keeps a margin of
  `10 ^ -5` to the integers around it; the others are about the order of two
  values or about the calls at which C defines no value at all
  (`mapq_value`).
-/

set_option linter.unusedVariables false

namespace Sam

/-! ## Machine integers and `fprintf` conversions -/

/-- The `int` obtained from the low 32 bits of an integer (two's complement). -/
def to_int32 (v : Int) : Int :=
  let low := v % 4294967296
  if low < 2147483648 then low else low - 4294967296

/-- The `size_t` holding an integer result (reduction modulo `2 ^ 64`). -/
def to_size_t (v : Int) : Nat :=
  (v % 18446744073709551616).toNat

/-- Canonical base-10 text of an integer: the digits without leading zeros,
preceded by `-` exactly when the value is negative. -/
def dec (w : Int) : List Char :=
  if w < 0 then '-' :: Nat.toDigits 10 w.natAbs else Nat.toDigits 10 w.toNat

/-- The text written by the `fprintf` conversion `%d` for an integer argument
`v` of any width: the argument is read back as an `int`. -/
def fmt_d (v : Int) : List Char :=
  dec (to_int32 v)

/-! ## SAM flags -/

def SAM_PAIRED : Nat := 1
def SAM_MAPPED_PAIRED : Nat := 2
def SAM_UNMAPPED : Nat := 4
def SAM_MATE_UNMAPPED : Nat := 8
def SAM_REVERSED : Nat := 16
def SAM_MATE_REVERSED : Nat := 32
def SAM_FIRST_IN_PAIR : Nat := 64
def SAM_SECOND_IN_PAIR : Nat := 128
def SAM_SECONDARY_ALIGNMENT : Nat := 256
def SAM_FAILS_CHECKS : Nat := 512
def SAM_DUPLICATE : Nat := 1024
def SAM_SUPPLEMENTARY_ALIGNMENT : Nat := 2048

/-! ## Reads and records -/

/-- Modelled from the spec: the string buffer `kstring_t` of `kseq.h` (reached
through `kpbseq.h`, which is not among the sources): the length `l` recorded
by the reader and the buffer `s`, null when the read carries no such
string. -/
structure kstring_t where
  l : Nat
  s : Option (List Char)

/-- Modelled from the spec: the read `kseq_t` (declared through `kpbseq.h`,
which is not among the sources), the spec's ReadIdentity: query name, raw
sequence and raw quality string, the last one possibly absent.  The writer
reads `name.s` and `seq.s`, which the reader always allocates, and both
`qual.l` and `qual.s`. -/
structure kseq_t where
  name : List Char
  seq : List Char
  qual : kstring_t

/-- The record `sam_t`, with the default member initialisers of the source. -/
structure sam_t where
  read : Option kseq_t := none
  flag : Nat := 4
  pos : Nat := 0
  mapq : Nat := 255
  pnext : Nat := 0
  tlen : Int := 0
  rname : List Char := ['*']
  cigar : List Char := ['*']
  rnext : List Char := ['*']
  as : Nat := 0
  nm : Nat := 0
  zs : Nat := 0
  md : List Char := []
  rlen : Nat := 0

/-- The constructor `sam_t(const kseq_t* read_)`: binds the read and leaves
every other member at its default. -/
def sam_t.ctor (read_ : Option kseq_t) : sam_t :=
  { read := read_ }

/-! ## Record form -/

/-- The overload `write_sam(FILE *out, const sam_t s)`. -/
def write_sam (s : sam_t) : Option (List Char) :=
  match s.read with
  | none => none
  | some read =>
    let out : List Char := read.name ++ ['\t']           -- QNAME
    let out := out ++ fmt_d s.flag ++ ['\t']              -- FLAG
    let out := out ++ s.rname ++ ['\t']                   -- RNAME
    let out := out ++ fmt_d s.pos ++ ['\t']               -- POS
    let out := out ++ fmt_d s.mapq ++ ['\t']              -- MAPQ
    let out := out ++ s.cigar ++ ['\t']                   -- CIGAR
    let out := out ++ s.rnext ++ ['\t']                   -- RNEXT
    let out := out ++ fmt_d s.pnext ++ ['\t']             -- PNEXT
    let out := out ++ fmt_d s.tlen ++ ['\t']              -- TLEN
    let out := out ++ read.seq ++ ['\t']                  -- SEQ
    let out :=                                            -- QUAL
      match read.qual.s with
      | some q => out ++ q
      | none => out ++ ['*']
    -- Optional TAGs
    if s.flag &&& SAM_UNMAPPED = 0 then
      let out := out ++ "\tAS:i:".toList ++ fmt_d s.as    -- AS
      let out := out ++ "\tNM:i:".toList ++ fmt_d s.nm    -- NM
      let out :=
        if s.zs > 0 then out ++ "\tZS:i:".toList ++ fmt_d s.zs else out  -- ZS
      some (out ++ "\tMD:Z:".toList ++ s.md ++ ['\n'])    -- MD
    else
      some (out ++ ['\n'])

/-! ## Raw-parameter form -/

/-- The `double` expression `-4.343 * log(1 - (double)abs(score - score2) /
(double)score)`, evaluated in exact real arithmetic; the `int` difference is
taken exactly (it does not overflow for scores of equal sign).  The code
computes it in `double`: for 32-bit scores with `0 < score2 < 2 * score` the
value it gets is within `10 ^ -5` of this one (`double_eval`,
`double_eval_near_wide`), which is why the theorems on the value ask for that
margin to the neighbouring integers.  At argument zero
the C `log` is minus infinity and below zero it is not a number;
`Real.log 0 = 0` and `Real.log x = Real.log |x|` are conventions of the
library, and no theorem on the MAPQ value is stated at such a call
(`mapq_value` is `none` there). -/
noncomputable def mapq_double (score score2 : Int) : ℝ :=
  -4.343 * Real.log (1 - ((|score - score2| : Int) : ℝ) / ((score : Int) : ℝ))

/-- The conversion of a `double` to `uint32_t` in the initialisation
`uint32_t mapq = ...`: the fractional part is discarded.  C defines the
conversion when the truncated value is in `[0, 2 ^ 32)`, and there it is this
integer part.  For a negative, infinite or not-a-number operand C defines
nothing, and what this function gives there is a convention; `mapq_value`
tells where the conversion is defined, and the theorems on the value stay
inside that range. -/
noncomputable def double_to_uint32 (x : ℝ) : Nat :=
  ⌊x⌋₊ % 4294967296

/-- The value C defines for `uint32_t mapq = -4.343 * log(...)`, when it
defines one (for `score ≠ 0`, the only case in which the code evaluates the
expression).  `log` is finite only at a positive argument: at zero it is
minus infinity, which makes the product plus infinity, and below zero it is
not a number.  The conversion of a `double` to `uint32_t` is defined only
when the truncated value is representable, and is then the integer part.
Everywhere else the behaviour is undefined: `none`.  (`write_sam_raw` takes
the integer part throughout; it is the value C defines exactly where
`mapq_value` is not `none`.) -/
noncomputable def mapq_value (score score2 : Int) : Option Nat :=
  if 0 < 1 - ((|score - score2| : Int) : ℝ) / ((score : Int) : ℝ)
      ∧ -1 < mapq_double score score2 ∧ mapq_double score score2 < 4294967296 then
    some ⌊mapq_double score score2⌋₊
  else none

/-- The evaluation of `-4.343 * log(1 - (double)abs(score - score2) /
(double)score)` in binary floating point, operation by operation: `q` is the
quotient as computed (the conversions of the 32-bit operands to `double` are
exact), `t` the difference `1 - q`, `l` the value the library returns for
`log(t)`, `c` the `double` for the literal `4.343`, and `d` the product
`-c * l`.  Each arithmetic result and the constant are within the relative
error `2 ^ -52` of the exact result on the computed operands (IEEE 754
`double`, rounding to nearest, stays within `2 ^ -53`; the results are far
from underflow and overflow), and the library `log` within `2 ^ -50`. -/
def double_eval (score score2 : Int) (q t l c d : ℝ) : Prop :=
  |q - ((|score - score2| : Int) : ℝ) / ((score : Int) : ℝ)|
      ≤ 1 / 2 ^ 52 * |((|score - score2| : Int) : ℝ) / ((score : Int) : ℝ)| ∧
  |t - (1 - q)| ≤ 1 / 2 ^ 52 * |1 - q| ∧
  |l - Real.log t| ≤ 1 / 2 ^ 50 * |Real.log t| ∧
  |c - 4.343| ≤ 1 / 2 ^ 52 * 4.343 ∧
  |d - -c * l| ≤ 1 / 2 ^ 52 * |-c * l|

/-- The body of the loop `for (; p >= 0; --p) fprintf(out, "%c", s[p])` run
while `k` indices remain: it is entered with `p = k - 1` and prints `s[p]`.
(An index past the buffer reads as NUL.) -/
def print_down (s : List Char) : Nat → List Char
  | 0 => []
  | k + 1 => s.getD k '\x00' :: print_down s k

/-- The loop `for (; p >= 0; --p) fprintf(out, "%c", s[p])` entered with the
`int32_t` index `p`: nothing is printed when `p` is negative. -/
def print_backwards (s : List Char) (p : Int) : List Char :=
  print_down s (p + 1).toNat

/-- The raw-parameter overload `write_sam(score, score2, min_score, ref_pos,
ref_seq_name, read, strand, out, cigar, md, mismatches, r_next, p_next,
t_len)`. -/
noncomputable def write_sam_raw (score score2 min_score : Int) (ref_pos : Nat)
    (ref_seq_name : List Char) (read : Option kseq_t) (strand : Int)
    (cigar md : List Char) (mismatches : Nat) (r_next : List Char)
    (p_next : Nat) (t_len : Int) : Option (List Char) :=
  match read with
  | none => none
  | some read =>
    let out : List Char := read.name ++ ['\t']
    if score = 0 then
      some (out ++ "4\t*\t0\t255\t*\t*\t0\t0\t*\t*\n".toList)
    else
      let mapq : Nat := double_to_uint32 (mapq_double score score2)
      let out := if strand ≠ 0 then out ++ "16\t".toList else out ++ "0\t".toList
      let out := out ++ ref_seq_name ++ ['\t'] ++ fmt_d (to_size_t (ref_pos + 1)) ++ ['\t']
        ++ fmt_d mapq ++ ['\t']
      let out := out ++ cigar ++ ['\t']
      let out := out ++ r_next ++ ['\t'] ++ fmt_d (to_size_t (p_next + 1)) ++ ['\t']
        ++ fmt_d t_len ++ ['\t']
      let out := out ++ read.seq
      let out := out ++ ['\t']
      let out :=
        match read.qual.s with
        | some q =>
          if strand ≠ 0 then
            out ++ print_backwards q (to_int32 (to_size_t ((read.qual.l : Int) - 1)))
          else out ++ q
        | none => out ++ ['*']
      let out := out ++ "\tAS:i:".toList ++ fmt_d score
      let out := out ++ "\tNM:i:".toList ++ fmt_d mismatches
      let out := if score2 > 0 then out ++ "\tZS:i:".toList ++ fmt_d score2 else out
      some (out ++ "\tMD:Z:".toList ++ md ++ ['\n'])

/-! ## Reading a written line -/

/-- A string that can stand as one field of a line: no tab, no newline. -/
def tab_free (f : List Char) : Prop :=
  '\t' ∉ f ∧ '\n' ∉ f

instance (f : List Char) : Decidable (tab_free f) := by
  unfold tab_free; infer_instance

/-- The tab-separated fields of a written line, its last character (the
terminator) removed. -/
def sam_fields (line : List Char) : List (List Char) :=
  (line.dropLast).splitOn '\t'

/-! ## The layout of a line, in the spec's words -/

/-- The eleven mandatory fields of the record form, in the spec's order:
QNAME, FLAG, RNAME, POS, MAPQ, CIGAR, RNEXT, PNEXT, TLEN, SEQ, QUAL.  Numeric
fields are the `%d` conversion of the stored value; QUAL is the quality
string, or `*` when the read has none. -/
def mandatory_fields (s : sam_t) (r : kseq_t) : List (List Char) :=
  [r.name, fmt_d s.flag, s.rname, fmt_d s.pos, fmt_d s.mapq, s.cigar, s.rnext,
   fmt_d s.pnext, fmt_d s.tlen, r.seq, (r.qual.s).getD ['*']]

/-- The optional tags of the record form, in the spec's order: `AS:i:`,
`NM:i:`, `ZS:i:` only when `zs > 0`, `MD:Z:`. -/
def tag_fields (s : sam_t) : List (List Char) :=
  ["AS:i:".toList ++ fmt_d s.as, "NM:i:".toList ++ fmt_d s.nm]
    ++ (if s.zs > 0 then ["ZS:i:".toList ++ fmt_d s.zs] else [])
    ++ ["MD:Z:".toList ++ s.md]

/-- The QUAL text of the raw-parameter form as the code produces it: the loop
output on the reverse strand, the string itself on the forward strand, `*`
without a quality string. -/
def raw_qual (r : kseq_t) (strand : Int) : List Char :=
  match r.qual.s with
  | some q =>
    if strand ≠ 0 then print_backwards q (to_int32 (to_size_t ((r.qual.l : Int) - 1))) else q
  | none => ['*']

/-- The eleven mandatory fields of the raw-parameter form when `score ≠ 0`. -/
noncomputable def raw_mandatory_fields (score score2 : Int) (ref_pos : Nat)
    (ref_seq_name : List Char) (r : kseq_t) (strand : Int) (cigar r_next : List Char)
    (p_next : Nat) (t_len : Int) : List (List Char) :=
  [r.name, if strand ≠ 0 then ['1', '6'] else ['0'], ref_seq_name,
   fmt_d (to_size_t (ref_pos + 1)), fmt_d (double_to_uint32 (mapq_double score score2)),
   cigar, r_next, fmt_d (to_size_t (p_next + 1)), fmt_d t_len, r.seq, raw_qual r strand]

/-- The optional tags of the raw-parameter form: `AS:i:`, `NM:i:`, `ZS:i:`
only when `score2 > 0`, `MD:Z:`. -/
def raw_tag_fields (score score2 : Int) (mismatches : Nat) (md : List Char) :
    List (List Char) :=
  ["AS:i:".toList ++ fmt_d score, "NM:i:".toList ++ fmt_d mismatches]
    ++ (if score2 > 0 then ["ZS:i:".toList ++ fmt_d score2] else [])
    ++ ["MD:Z:".toList ++ md]

/-- A field carries the tag `t` (a tag name with its type code, as in
`ZS:i:`) when it starts with `t`. -/
def is_tag (t f : List Char) : Prop :=
  f.take t.length = t

instance (t f : List Char) : Decidable (is_tag t f) := by
  unfold is_tag; infer_instance

/-- A read with a quality string (a FASTQ record). -/
def read_fq : kseq_t :=
  { name := "r1".toList, seq := "ACGT".toList, qual := { l := 4, s := some "!!##".toList } }

/-- A read without a quality string (a FASTA record). -/
def read_fa : kseq_t :=
  { name := "r2".toList, seq := "ACGT".toList, qual := { l := 0, s := none } }

/-- A mapped record on the reverse strand with a second-best score. -/
def rec_mapped : sam_t :=
  { read := some read_fq, flag := 16, pos := 100, mapq := 60, rname := "chr1".toList,
    cigar := "4M".toList, as := 4, nm := 0, zs := 2, md := "4".toList }

/-- A record with both UNMAPPED and REVERSE set and leftover tag values; its
`md` even holds a tab. -/
def rec_unmapped : sam_t :=
  { read := some read_fq, flag := 20, as := 7, nm := 1, zs := 3, md := "a\tb".toList }

/-- A mapped record whose position does not fit a 32-bit `int`, and whose
mate position does not fit 32 bits at all. -/
def rec_far : sam_t :=
  { read := some read_fq, flag := 0, pos := 2147483648, mapq := 60, pnext := 4294967301,
    rname := "chr1".toList, cigar := "4M".toList, md := "4".toList }

/-- A mapped record whose numeric members do not fit a 32-bit `int`. -/
def rec_wide : sam_t :=
  { read := some read_fq, flag := 2147483648, pos := 4294967296, mapq := 4294967551,
    pnext := 3000000000, tlen := 2147483648, rname := "chr1".toList, cigar := "4M".toList,
    as := 4294967295, nm := 4294967297, zs := 6442450944, md := "4".toList }

/-- A mapped record whose alignment score does not fit a 32-bit `int`. -/
def rec_big_as : sam_t :=
  { read := some read_fq, flag := 16, pos := 100, mapq := 60, rname := "chr1".toList,
    cigar := "4M".toList, as := 4294967295, nm := 0, zs := 2, md := "4".toList }

/-- A mapped record whose second-best score is `2 ^ 32`. -/
def rec_big_zs : sam_t :=
  { read := some read_fq, flag := 16, pos := 100, mapq := 60, rname := "chr1".toList,
    cigar := "4M".toList, as := 4, nm := 0, zs := 4294967296, md := "4".toList }

/-! ## Lemmas on the conversions -/

theorem to_int32_of_range (v : Int) (h1 : -2147483648 ≤ v) (h2 : v < 2147483648) :
    to_int32 v = v := by
  unfold to_int32
  simp only []
  split <;> omega

theorem to_int32_of_nat (n : Nat) (h : n < 2147483648) : to_int32 (n : Int) = n :=
  to_int32_of_range _ (by omega) (by omega)

theorem to_size_t_succ (n : Nat) (h : n + 1 < 18446744073709551616) :
    to_size_t ((n : Int) + 1) = n + 1 := by
  unfold to_size_t
  omega

theorem dec_of_nat (n : Nat) : dec (n : Int) = Nat.toDigits 10 n := by
  unfold dec
  have h : ¬ ((n : Int) < 0) := by omega
  rw [if_neg h, Int.toNat_natCast]

/-- Below `2 ^ 31` the conversion `%d` writes the canonical decimal digits. -/
theorem fmt_d_of_nat (n : Nat) (h : n < 2147483648) : fmt_d (n : Int) = Nat.toDigits 10 n := by
  unfold fmt_d
  rw [to_int32_of_nat n h, dec_of_nat]

theorem digitChar_not_sep (m : Nat) (hm : m < 10) :
    Nat.digitChar m ≠ '\t' ∧ Nat.digitChar m ≠ '\n' := by
  interval_cases m <;> exact ⟨by decide, by decide⟩

theorem toDigitsCore_mem (fuel : Nat) : ∀ (n : Nat) (acc : List Char) (c : Char),
    c ∈ Nat.toDigitsCore 10 fuel n acc → c ∈ acc ∨ ∃ m, m < 10 ∧ c = Nat.digitChar m := by
  induction fuel with
  | zero => intro n acc c h; simp [Nat.toDigitsCore] at h; exact Or.inl h
  | succ fuel ih =>
    intro n acc c h
    rw [Nat.toDigitsCore] at h
    split at h
    · simp only [List.mem_cons] at h
      rcases h with h | h
      · exact Or.inr ⟨n % 10, Nat.mod_lt _ (by decide), h⟩
      · exact Or.inl h
    · rcases ih _ _ _ h with h | h
      · simp only [List.mem_cons] at h
        rcases h with h | h
        · exact Or.inr ⟨n % 10, Nat.mod_lt _ (by decide), h⟩
        · exact Or.inl h
      · exact Or.inr h

theorem toDigits_mem (n : Nat) (c : Char) (h : c ∈ Nat.toDigits 10 n) :
    ∃ m, m < 10 ∧ c = Nat.digitChar m := by
  unfold Nat.toDigits at h
  rcases toDigitsCore_mem _ _ _ _ h with h | h
  · simp at h
  · exact h

theorem toDigits_tab_free (n : Nat) : tab_free (Nat.toDigits 10 n) := by
  constructor <;> intro h <;> obtain ⟨m, hm, hc⟩ := toDigits_mem n _ h
  · exact (digitChar_not_sep m hm).1 hc.symm
  · exact (digitChar_not_sep m hm).2 hc.symm

theorem dec_tab_free (w : Int) : tab_free (dec w) := by
  unfold dec
  split
  · have h := toDigits_tab_free w.natAbs
    constructor
    · intro hc
      rcases List.mem_cons.1 hc with hc | hc
      · exact absurd hc (by decide)
      · exact h.1 hc
    · intro hc
      rcases List.mem_cons.1 hc with hc | hc
      · exact absurd hc (by decide)
      · exact h.2 hc
  · exact toDigits_tab_free _

/-- Whatever its argument, `%d` writes neither a tab nor a newline. -/
theorem fmt_d_tab_free (v : Int) : tab_free (fmt_d v) :=
  dec_tab_free _

/-! ## Lemmas on lines and fields -/

theorem tab_free_append {a b : List Char} (ha : tab_free a) (hb : tab_free b) :
    tab_free (a ++ b) := by
  unfold tab_free at *
  simp only [List.mem_append, not_or]
  exact ⟨⟨ha.1, hb.1⟩, ⟨ha.2, hb.2⟩⟩

/-- Splitting at the first tab: a tab-free head is the first field. -/
theorem splitOn_tab_cons (a rest : List Char) (h : '\t' ∉ a) :
    (a ++ '\t' :: rest).splitOn '\t' = a :: rest.splitOn '\t' := by
  unfold List.splitOn
  refine List.splitOnP_first _ _ ?_ _ (by simp) _
  intro x hx hp
  have hxt : x = '\t' := by simpa using hp
  exact h (hxt ▸ hx)

/-- A tab-free text is a single field. -/
theorem splitOn_tab_single (a : List Char) (h : '\t' ∉ a) :
    a.splitOn '\t' = [a] := by
  unfold List.splitOn
  refine List.splitOnP_eq_single _ _ ?_
  intro x hx hp
  have hxt : x = '\t' := by simpa using hp
  exact h (hxt ▸ hx)

/-! ## Lemmas on the reversal loop -/

theorem tab_AS : "\tAS:i:".toList = ['\t'] ++ "AS:i:".toList := by decide
theorem tab_NM : "\tNM:i:".toList = ['\t'] ++ "NM:i:".toList := by decide
theorem tab_ZS : "\tZS:i:".toList = ['\t'] ++ "ZS:i:".toList := by decide
theorem tab_MD : "\tMD:Z:".toList = ['\t'] ++ "MD:Z:".toList := by decide

/-- The QUAL statement of the record form writes the quality string or `*`. -/
theorem qual_or_star (out : List Char) (qs : Option (List Char)) :
    (match qs with
      | some q => out ++ q
      | none => out ++ ['*']) = out ++ qs.getD ['*'] := by
  cases qs <;> rfl

/-- Eleven chunks, each followed by a tab except the last, then a newline:
the line of the eleven fields. -/
theorem line_of_mandatory (f0 f1 f2 f3 f4 f5 f6 f7 f8 f9 f10 : List Char) :
    (f0 ++ ['\t'] ++ f1 ++ ['\t'] ++ f2 ++ ['\t'] ++ f3 ++ ['\t'] ++ f4 ++ ['\t'] ++ f5
        ++ ['\t'] ++ f6 ++ ['\t'] ++ f7 ++ ['\t'] ++ f8 ++ ['\t'] ++ f9 ++ ['\t'] ++ f10) ++ ['\n']
      = List.intercalate ['\t'] [f0, f1, f2, f3, f4, f5, f6, f7, f8, f9, f10] ++ ['\n'] := by
  simp [List.intercalate, List.intersperse]

/-- Eleven chunks followed by the tag block, as the writers emit it: the line
of the eleven fields and the tags. -/
theorem line_with_tags (f0 f1 f2 f3 f4 f5 f6 f7 f8 f9 f10 a n z m : List Char)
    (p : Prop) [Decidable p] :
    (if p then (f0 ++ ['\t'] ++ f1 ++ ['\t'] ++ f2 ++ ['\t'] ++ f3 ++ ['\t'] ++ f4 ++ ['\t'] ++ f5
        ++ ['\t'] ++ f6 ++ ['\t'] ++ f7 ++ ['\t'] ++ f8 ++ ['\t'] ++ f9 ++ ['\t'] ++ f10)
        ++ "\tAS:i:".toList ++ a ++ "\tNM:i:".toList ++ n ++ "\tZS:i:".toList ++ z
      else (f0 ++ ['\t'] ++ f1 ++ ['\t'] ++ f2 ++ ['\t'] ++ f3 ++ ['\t'] ++ f4 ++ ['\t'] ++ f5
        ++ ['\t'] ++ f6 ++ ['\t'] ++ f7 ++ ['\t'] ++ f8 ++ ['\t'] ++ f9 ++ ['\t'] ++ f10)
        ++ "\tAS:i:".toList ++ a ++ "\tNM:i:".toList ++ n)
        ++ "\tMD:Z:".toList ++ m ++ ['\n']
      = List.intercalate ['\t'] ([f0, f1, f2, f3, f4, f5, f6, f7, f8, f9, f10]
          ++ (["AS:i:".toList ++ a, "NM:i:".toList ++ n]
            ++ (if p then ["ZS:i:".toList ++ z] else []) ++ ["MD:Z:".toList ++ m])) ++ ['\n'] := by
  rw [tab_AS, tab_NM, tab_ZS, tab_MD]
  by_cases hp : p <;> simp [hp, List.intercalate, List.intersperse]

/-- The FLAG statement of the raw-parameter form writes `16` or `0` and a tab. -/
theorem flag_chunk (out : List Char) (p : Prop) [Decidable p] :
    (if p then out ++ "16\t".toList else out ++ "0\t".toList)
      = out ++ (if p then ['1', '6'] else ['0']) ++ ['\t'] := by
  by_cases hp : p
  · rw [if_pos hp, if_pos hp, List.append_assoc]
    exact congrArg (fun x => out ++ x) (by decide)
  · rw [if_neg hp, if_neg hp, List.append_assoc]
    exact congrArg (fun x => out ++ x) (by decide)

/-- The QUAL statements of the raw-parameter form write `raw_qual`. -/
theorem raw_qual_chunk (out : List Char) (r : kseq_t) (strand : Int) :
    (match r.qual.s with
      | some q =>
        if strand ≠ 0 then
          out ++ print_backwards q (to_int32 (to_size_t ((r.qual.l : Int) - 1)))
        else out ++ q
      | none => out ++ ['*']) = out ++ raw_qual r strand := by
  unfold raw_qual
  cases r.qual.s with
  | none => rfl
  | some q =>
    by_cases hs : strand ≠ 0
    · simp only [if_pos hs]
    · simp only [if_neg hs]

theorem sam_fields_line (F : List (List Char)) (hF : ∀ f ∈ F, tab_free f) (hne : F ≠ []) :
    sam_fields (List.intercalate ['\t'] F ++ ['\n']) = F := by
  unfold sam_fields
  rw [List.dropLast_concat]
  exact List.splitOn_intercalate _ _ (fun f hf => (hF f hf).1) hne

theorem intercalate_cons_cons (a b : List Char) (F : List (List Char)) :
    List.intercalate ['\t'] (a :: b :: F) = a ++ '\t' :: List.intercalate ['\t'] (b :: F) := by
  simp [List.intercalate, List.intersperse]

theorem splitOn_intercalate_head (F1 F2 : List (List Char)) (h1 : ∀ f ∈ F1, tab_free f)
    (h2 : F2 ≠ []) :
    (List.intercalate ['\t'] (F1 ++ F2)).splitOn '\t'
      = F1 ++ (List.intercalate ['\t'] F2).splitOn '\t' := by
  induction F1 with
  | nil => simp
  | cons a F1 ih =>
    have ha : '\t' ∉ a := (h1 a (List.mem_cons_self _ _)).1
    have ih2 := ih (fun f hf => h1 f (List.mem_cons_of_mem _ hf))
    cases hF : F1 ++ F2 with
    | nil =>
      have : F2 = [] := (List.append_eq_nil.1 hF).2
      exact absurd this h2
    | cons b G =>
      rw [List.cons_append, hF, intercalate_cons_cons, splitOn_tab_cons _ _ ha, ← hF, ih2]
      rfl

/-- The first fields of a line are read back as soon as they are tab-free,
whatever follows them. -/
theorem sam_fields_head (F1 F2 : List (List Char)) (h1 : ∀ f ∈ F1, tab_free f)
    (h2 : F2 ≠ []) (k : Nat) (hk : k < F1.length) :
    (sam_fields (List.intercalate ['\t'] (F1 ++ F2) ++ ['\n']))[k]? = F1[k]? := by
  unfold sam_fields
  rw [List.dropLast_concat, splitOn_intercalate_head F1 F2 h1 h2, List.getElem?_append_left hk]

theorem mem_intercalate (c : Char) (F : List (List Char)) (h : c ∈ List.intercalate ['\t'] F) :
    c = '\t' ∨ ∃ f ∈ F, c ∈ f := by
  induction F with
  | nil => simp [List.intercalate, List.intersperse] at h
  | cons a F ih =>
    cases F with
    | nil =>
      have h2 : c ∈ a := by simpa [List.intercalate, List.intersperse] using h
      exact Or.inr ⟨a, List.mem_cons_self _ _, h2⟩
    | cons b G =>
      rw [intercalate_cons_cons] at h
      rcases List.mem_append.1 h with h | h
      · exact Or.inr ⟨a, List.mem_cons_self _ _, h⟩
      · rcases List.mem_cons.1 h with h | h
        · exact Or.inl h
        · rcases ih h with h | ⟨f, hf, hc⟩
          · exact Or.inl h
          · exact Or.inr ⟨f, List.mem_cons_of_mem _ hf, hc⟩

/-- A line of newline-free fields holds no newline before its terminator. -/
theorem line_single_newline (F : List (List Char)) (hF : ∀ f ∈ F, tab_free f) :
    '\n' ∉ (List.intercalate ['\t'] F ++ ['\n']).dropLast := by
  rw [List.dropLast_concat]
  intro hc
  rcases mem_intercalate _ _ hc with hc | ⟨f, hf, hc⟩
  · exact absurd hc (by decide)
  · exact (hF f hf).2 hc

/-! ## The text written by the two forms -/

theorem write_sam_mapped (s : sam_t) (r : kseq_t) (hread : s.read = some r)
    (hflag : s.flag &&& SAM_UNMAPPED = 0) :
    write_sam s
      = some (List.intercalate ['\t'] (mandatory_fields s r ++ tag_fields s) ++ ['\n']) := by
  unfold write_sam mandatory_fields tag_fields
  rw [hread]
  simp only [hflag, if_true, qual_or_star]
  exact congrArg some (line_with_tags _ _ _ _ _ _ _ _ _ _ _ _ _ _ _ _)

theorem write_sam_unmapped (s : sam_t) (r : kseq_t) (hread : s.read = some r)
    (hflag : s.flag &&& SAM_UNMAPPED ≠ 0) :
    write_sam s = some (List.intercalate ['\t'] (mandatory_fields s r) ++ ['\n']) := by
  unfold write_sam mandatory_fields
  rw [hread]
  simp only [hflag, if_false, qual_or_star]
  exact congrArg some (line_of_mandatory _ _ _ _ _ _ _ _ _ _ _)

theorem write_sam_raw_mapped (score score2 min_score : Int) (ref_pos : Nat)
    (ref_seq_name : List Char) (r : kseq_t) (strand : Int)
    (cigar md : List Char) (mismatches : Nat) (r_next : List Char)
    (p_next : Nat) (t_len : Int) (hscore : score ≠ 0) :
    write_sam_raw score score2 min_score ref_pos ref_seq_name (some r) strand cigar md
        mismatches r_next p_next t_len
      = some (List.intercalate ['\t']
          (raw_mandatory_fields score score2 ref_pos ref_seq_name r strand cigar r_next p_next
              t_len
            ++ raw_tag_fields score score2 mismatches md) ++ ['\n']) := by
  unfold write_sam_raw raw_mandatory_fields raw_tag_fields
  simp only [hscore, if_false, flag_chunk, raw_qual_chunk]
  exact congrArg some (line_with_tags _ _ _ _ _ _ _ _ _ _ _ _ _ _ _ _)

theorem qual_field_tab_free (r : kseq_t) (hqual : ∀ q, r.qual.s = some q → tab_free q) :
    tab_free ((r.qual.s).getD ['*']) := by
  cases hq : r.qual.s with
  | none => exact ⟨by decide, by decide⟩
  | some q => exact hqual q hq

theorem mandatory_fields_tab_free (s : sam_t) (r : kseq_t)
    (hname : tab_free r.name) (hrname : tab_free s.rname) (hcigar : tab_free s.cigar)
    (hrnext : tab_free s.rnext) (hseq : tab_free r.seq)
    (hqual : ∀ q, r.qual.s = some q → tab_free q) :
    ∀ f ∈ mandatory_fields s r, tab_free f := by
  intro f hf
  simp only [mandatory_fields, List.mem_cons, List.mem_singleton, List.not_mem_nil,
    or_false] at hf
  rcases hf with h | h | h | h | h | h | h | h | h | h | h <;> rw [h]
  · exact hname
  · exact fmt_d_tab_free _
  · exact hrname
  · exact fmt_d_tab_free _
  · exact fmt_d_tab_free _
  · exact hcigar
  · exact hrnext
  · exact fmt_d_tab_free _
  · exact fmt_d_tab_free _
  · exact hseq
  · exact qual_field_tab_free r hqual

theorem tag_text_tab_free (tag : List Char) (htag : tab_free tag) (v : Int) :
    tab_free (tag ++ fmt_d v) :=
  tab_free_append htag (fmt_d_tab_free v)

theorem tag_fields_tab_free (s : sam_t) (hmd : tab_free s.md) :
    ∀ f ∈ tag_fields s, tab_free f := by
  intro f hf
  unfold tag_fields at hf
  by_cases hz : s.zs > 0
  · simp only [hz, if_true, List.cons_append, List.nil_append, List.mem_cons,
      List.mem_singleton, List.not_mem_nil, or_false] at hf
    rcases hf with h | h | h | h <;> rw [h]
    · exact tag_text_tab_free _ (by decide) _
    · exact tag_text_tab_free _ (by decide) _
    · exact tag_text_tab_free _ (by decide) _
    · exact tab_free_append (by decide) hmd
  · simp only [hz, if_false, List.cons_append, List.nil_append, List.append_nil, List.mem_cons,
      List.mem_singleton, List.not_mem_nil, or_false] at hf
    rcases hf with h | h | h <;> rw [h]
    · exact tag_text_tab_free _ (by decide) _
    · exact tag_text_tab_free _ (by decide) _
    · exact tab_free_append (by decide) hmd

theorem tag_fields_ne_nil (s : sam_t) : tag_fields s ≠ [] := by
  unfold tag_fields
  exact List.append_ne_nil_of_right_ne_nil _ (List.cons_ne_nil _ _)

theorem mandatory_fields_length (s : sam_t) (r : kseq_t) :
    (mandatory_fields s r).length = 11 := rfl

/-! ## Record form: layout -/

/-- Layout of a mapped line, every number standing as `%d` writes it: when
the UNMAPPED bit is clear (read non-null, string fields free of tab and
newline) the text written is the eleven mandatory fields QNAME, FLAG, RNAME,
POS, MAPQ, CIGAR, RNEXT, PNEXT, TLEN, SEQ, QUAL followed by the tags AS, NM,
ZS (only when `zs > 0`) and MD, joined by single tabs and closed by one
newline; splitting the line at tabs gives back exactly these fields, and the
only newline is the terminator.  The values after `AS:i:`, `NM:i:` and
`ZS:i:` are `fmt_d` of the members, which is their decimal text only within
the range of `int`. -/
theorem write_sam_mapped_layout (s : sam_t) (r : kseq_t) (hread : s.read = some r)
    (hflag : s.flag &&& SAM_UNMAPPED = 0)
    (hname : tab_free r.name) (hrname : tab_free s.rname) (hcigar : tab_free s.cigar)
    (hrnext : tab_free s.rnext) (hseq : tab_free r.seq)
    (hqual : ∀ q, r.qual.s = some q → tab_free q) (hmd : tab_free s.md) :
    ∃ line, write_sam s = some line ∧
      line = List.intercalate ['\t'] (mandatory_fields s r ++ tag_fields s) ++ ['\n'] ∧
      sam_fields line = mandatory_fields s r ++ tag_fields s ∧
      '\n' ∉ line.dropLast := by
  have hF : ∀ f ∈ mandatory_fields s r ++ tag_fields s, tab_free f := by
    intro f hf
    rcases List.mem_append.1 hf with hf | hf
    · exact mandatory_fields_tab_free s r hname hrname hcigar hrnext hseq hqual f hf
    · exact tag_fields_tab_free s hmd f hf
  have hne : mandatory_fields s r ++ tag_fields s ≠ [] := by
    intro h
    exact tag_fields_ne_nil s (List.append_eq_nil.1 h).2
  exact ⟨_, write_sam_mapped s r hread hflag, rfl, sam_fields_line _ hF hne,
    line_single_newline _ hF⟩

/-- The layout on a reverse-strand record with a second-best score and small
numbers: the hypotheses hold there and the line is the expected text. -/
theorem write_sam_mapped_layout_witness :
    write_sam rec_mapped
        = some "r1\t16\tchr1\t100\t60\t4M\t*\t0\t0\tACGT\t!!##\tAS:i:4\tNM:i:0\tZS:i:2\tMD:Z:4\n".toList ∧
      ∃ line, write_sam rec_mapped = some line ∧
        line = List.intercalate ['\t']
          (mandatory_fields rec_mapped read_fq ++ tag_fields rec_mapped) ++ ['\n'] ∧
        sam_fields line = mandatory_fields rec_mapped read_fq ++ tag_fields rec_mapped ∧
        '\n' ∉ line.dropLast :=
  ⟨by decide,
   write_sam_mapped_layout rec_mapped read_fq rfl (by decide) (by decide) (by decide)
     (by decide) (by decide) (by decide)
     (by intro q hq; cases hq; decide) (by decide)⟩

/-- C1 (the code at the failing input). Record form, mapped case, on a
record with the UNMAPPED bit clear, a non-null read and strings free of tab
and newline, whose `as` is `4294967295`: the layout is the one of the claim,
but the tag written is `AS:i:-1`, not `AS:i:4294967295`, because the `size_t`
member goes through `%d`. -/
theorem write_sam_as_wraps :
    rec_big_as.flag &&& SAM_UNMAPPED = 0 ∧ rec_big_as.as = 4294967295 ∧
    write_sam rec_big_as
      = some "r1\t16\tchr1\t100\t60\t4M\t*\t0\t0\tACGT\t!!##\tAS:i:-1\tNM:i:0\tZS:i:2\tMD:Z:4\n".toList :=
  ⟨by decide, rfl, by decide⟩

/-- C2. Record form, unmapped case: when the UNMAPPED bit is set (whatever
other bits are set and whatever `as`, `nm`, `zs`, `md` hold; string fields of
the mandatory part free of tab and newline) the line is the eleven mandatory
fields and nothing else: it splits at tabs into exactly eleven fields, no
field (hence no AS, NM, ZS or MD tag) follows the eleventh, the last field is
QUAL and the only newline comes directly after it. -/
theorem write_sam_unmapped_layout (s : sam_t) (r : kseq_t) (hread : s.read = some r)
    (hflag : s.flag &&& SAM_UNMAPPED ≠ 0)
    (hname : tab_free r.name) (hrname : tab_free s.rname) (hcigar : tab_free s.cigar)
    (hrnext : tab_free s.rnext) (hseq : tab_free r.seq)
    (hqual : ∀ q, r.qual.s = some q → tab_free q) :
    ∃ line, write_sam s = some line ∧
      line = List.intercalate ['\t'] (mandatory_fields s r) ++ ['\n'] ∧
      sam_fields line = mandatory_fields s r ∧
      (sam_fields line).length = 11 ∧
      (sam_fields line).drop 11 = [] ∧
      (sam_fields line).getLast? = some ((r.qual.s).getD ['*']) ∧
      '\n' ∉ line.dropLast := by
  have hF := mandatory_fields_tab_free s r hname hrname hcigar hrnext hseq hqual
  have hne : mandatory_fields s r ≠ [] := by simp [mandatory_fields]
  have hsplit := sam_fields_line _ hF hne
  refine ⟨_, write_sam_unmapped s r hread hflag, rfl, hsplit, ?_, ?_, ?_,
    line_single_newline _ hF⟩
  · rw [hsplit]; rfl
  · rw [hsplit]; rfl
  · rw [hsplit]; rfl

/-- Witness of C2 on a record with UNMAPPED and REVERSE both set, non-zero
`as`, `nm`, `zs` and an `md` that even contains a tab. -/
theorem write_sam_unmapped_layout_witness :
    write_sam rec_unmapped = some "r1\t20\t*\t0\t255\t*\t*\t0\t0\tACGT\t!!##\n".toList ∧
      ∃ line, write_sam rec_unmapped = some line ∧
        line = List.intercalate ['\t'] (mandatory_fields rec_unmapped read_fq) ++ ['\n'] ∧
        sam_fields line = mandatory_fields rec_unmapped read_fq ∧
        (sam_fields line).length = 11 ∧
        (sam_fields line).drop 11 = [] ∧
        (sam_fields line).getLast? = some ((read_fq.qual.s).getD ['*']) ∧
        '\n' ∉ line.dropLast :=
  ⟨by decide,
   write_sam_unmapped_layout rec_unmapped read_fq rfl (by decide) (by decide) (by decide)
     (by decide) (by decide) (by decide) (by intro q hq; cases hq; decide)⟩

/-! ## Raw-parameter form -/

theorem raw_mandatory_fields_tab_free (score score2 : Int) (ref_pos : Nat)
    (ref_seq_name : List Char) (r : kseq_t) (strand : Int) (cigar r_next : List Char)
    (p_next : Nat) (t_len : Int)
    (hname : tab_free r.name) (href : tab_free ref_seq_name) (hcigar : tab_free cigar)
    (hrnext : tab_free r_next) (hseq : tab_free r.seq)
    (hqual : tab_free (raw_qual r strand)) :
    ∀ f ∈ raw_mandatory_fields score score2 ref_pos ref_seq_name r strand cigar r_next p_next
      t_len, tab_free f := by
  intro f hf
  simp only [raw_mandatory_fields, List.mem_cons, List.mem_singleton, List.not_mem_nil,
    or_false] at hf
  rcases hf with h | h | h | h | h | h | h | h | h | h | h <;> rw [h]
  · exact hname
  · by_cases hs : strand ≠ 0
    · rw [if_pos hs]; decide
    · rw [if_neg hs]; decide
  · exact href
  · exact fmt_d_tab_free _
  · exact fmt_d_tab_free _
  · exact hcigar
  · exact hrnext
  · exact fmt_d_tab_free _
  · exact fmt_d_tab_free _
  · exact hseq
  · exact hqual

theorem raw_mandatory_fields_length (score score2 : Int) (ref_pos : Nat)
    (ref_seq_name : List Char) (r : kseq_t) (strand : Int) (cigar r_next : List Char)
    (p_next : Nat) (t_len : Int) :
    (raw_mandatory_fields score score2 ref_pos ref_seq_name r strand cigar r_next p_next
      t_len).length = 11 := rfl

theorem raw_tag_fields_ne_nil (score score2 : Int) (mismatches : Nat) (md : List Char) :
    raw_tag_fields score score2 mismatches md ≠ [] := by
  unfold raw_tag_fields
  exact List.append_ne_nil_of_right_ne_nil _ (List.cons_ne_nil _ _)

theorem unmapped_tail :
    ['\t'] ++ "4\t*\t0\t255\t*\t*\t0\t0\t*\t*\n".toList
      = "\t4\t*\t0\t255\t*\t*\t0\t0\t*\t*\n".toList := by
  decide

/-- C3. Raw-parameter form with `score == 0`: whatever the other parameters,
the text written is the read name followed by the fixed unmapped line
`\t4\t*\t0\t255\t*\t*\t0\t0\t*\t*\n`, without any tag. -/
theorem write_sam_raw_score_zero (score2 min_score : Int) (ref_pos : Nat)
    (ref_seq_name : List Char) (r : kseq_t) (strand : Int)
    (cigar md : List Char) (mismatches : Nat) (r_next : List Char)
    (p_next : Nat) (t_len : Int) :
    write_sam_raw 0 score2 min_score ref_pos ref_seq_name (some r) strand cigar md
        mismatches r_next p_next t_len
      = some (r.name ++ "\t4\t*\t0\t255\t*\t*\t0\t0\t*\t*\n".toList) := by
  unfold write_sam_raw
  simp only [if_true, List.append_assoc, unmapped_tail]

theorem mapq_double_eq (S S2 : Int) (h0 : 0 < S2) (h1 : S2 < S) :
    mapq_double S S2 = 4.343 * Real.log ((S : ℝ) / (S2 : ℝ)) := by
  unfold mapq_double
  have hS : (0 : ℝ) < (S : ℝ) := by exact_mod_cast (lt_trans h0 h1)
  have hS2 : (0 : ℝ) < (S2 : ℝ) := by exact_mod_cast h0
  have habs : |S - S2| = S - S2 := abs_of_pos (by omega)
  have harg : (1 : ℝ) - ((|S - S2| : Int) : ℝ) / (S : ℝ) = (S2 : ℝ) / (S : ℝ) := by
    rw [habs]
    push_cast
    field_simp
  rw [harg, Real.log_div hS2.ne' hS.ne', Real.log_div hS.ne' hS2.ne']
  ring

theorem mapq_double_bounds (S S2 : Int) (h0 : 0 < S2) (h1 : S2 < S) (h2 : S < 2147483648) :
    0 ≤ mapq_double S S2 ∧ mapq_double S S2 < 94 := by
  rw [mapq_double_eq S S2 h0 h1]
  have hS : (0 : ℝ) < (S : ℝ) := by exact_mod_cast (lt_trans h0 h1)
  have hS2 : (1 : ℝ) ≤ (S2 : ℝ) := by exact_mod_cast h0
  have hS2pos : (0 : ℝ) < (S2 : ℝ) := by linarith
  have hle : (S2 : ℝ) ≤ (S : ℝ) := by exact_mod_cast h1.le
  have hratio1 : (1 : ℝ) ≤ (S : ℝ) / (S2 : ℝ) := by
    rw [le_div_iff₀ hS2pos]; linarith
  have hratio2 : (S : ℝ) / (S2 : ℝ) ≤ 2 ^ 31 := by
    rw [div_le_iff₀ hS2pos]
    have h3 : (S : ℝ) ≤ 2147483648 := by exact_mod_cast h2.le
    nlinarith
  have hlog0 : 0 ≤ Real.log ((S : ℝ) / (S2 : ℝ)) := Real.log_nonneg hratio1
  have hlog1 : Real.log ((S : ℝ) / (S2 : ℝ)) ≤ 31 * Real.log 2 := by
    have := Real.log_le_log (by linarith) hratio2
    rwa [Real.log_pow] at this
  have hl2 := Real.log_two_lt_d9
  constructor
  · positivity
  · nlinarith

theorem mapq_double_eq_le (S S2 : Int) (h0 : 0 < S2) (h1 : S2 ≤ S) :
    mapq_double S S2 = 4.343 * Real.log ((S : ℝ) / (S2 : ℝ)) := by
  rcases lt_or_eq_of_le h1 with h | h
  · exact mapq_double_eq S S2 h0 h
  · subst h
    have hS : ((S2 : Int) : ℝ) ≠ 0 := by exact_mod_cast h0.ne'
    unfold mapq_double
    rw [sub_self, abs_zero, Int.cast_zero, zero_div, sub_zero, Real.log_one, div_self hS,
      Real.log_one, mul_zero, mul_zero]

theorem mapq_double_bounds_le (S S2 : Int) (h0 : 0 < S2) (h1 : S2 ≤ S) (h2 : S < 2147483648) :
    0 ≤ mapq_double S S2 ∧ mapq_double S S2 < 94 := by
  rcases lt_or_eq_of_le h1 with h | h
  · exact mapq_double_bounds S S2 h0 h h2
  · subst h
    rw [mapq_double_eq_le S2 S2 h0 le_rfl]
    have hS : ((S2 : Int) : ℝ) ≠ 0 := by exact_mod_cast h0.ne'
    rw [div_self hS, Real.log_one, mul_zero]
    constructor <;> norm_num

/-- The logarithm of a value within relative distance `5 / 10 ^ 7` of `r > 0`
is within `6 / 10 ^ 7` of the logarithm of `r`. -/
theorem log_near (r t : ℝ) (hr : 0 < r) (ht : |t - r| ≤ 5 / 10000000 * r) :
    |Real.log t - Real.log r| ≤ 6 / 10000000 := by
  obtain ⟨h1, h2⟩ := abs_le.1 ht
  have htpos : 0 < t := by nlinarith
  have hdiv : 0 < t / r := div_pos htpos hr
  rw [← Real.log_div htpos.ne' hr.ne']
  have hup := Real.log_le_sub_one_of_pos hdiv
  have hlo := Real.one_sub_inv_le_log_of_pos hdiv
  have e1 : t / r - 1 ≤ 5 / 10000000 := by
    rw [sub_le_iff_le_add, div_le_iff₀ hr]; linarith
  have e2 : -(6 / 10000000) ≤ 1 - (t / r)⁻¹ := by
    rw [inv_div, neg_le_sub_iff_le_add, div_le_iff₀ htpos]
    nlinarith
  rw [abs_le]
  constructor <;> linarith

/-- The exact evaluation is one of the evaluations `double_eval` admits. -/
theorem double_eval_exact (S S2 : Int) :
    double_eval S S2 (((|S - S2| : Int) : ℝ) / ((S : Int) : ℝ))
      (1 - ((|S - S2| : Int) : ℝ) / ((S : Int) : ℝ))
      (Real.log (1 - ((|S - S2| : Int) : ℝ) / ((S : Int) : ℝ))) 4.343 (mapq_double S S2) := by
  unfold double_eval mapq_double
  refine ⟨?_, ?_, ?_, ?_, ?_⟩
  · rw [sub_self, abs_zero]; positivity
  · rw [sub_self, abs_zero]; positivity
  · rw [sub_self, abs_zero]; positivity
  · rw [sub_self, abs_zero]; positivity
  · rw [sub_self, abs_zero]; positivity

/-- For 32-bit scores with `0 < S2 <= S`, every floating-point evaluation of
the estimate that `double_eval` admits is within `10 ^ -5` of the exact
value. -/
theorem double_eval_near (S S2 : Int) (q t l c d : ℝ) (h0 : 0 < S2) (h1 : S2 ≤ S)
    (h2 : S < 2147483648) (he : double_eval S S2 q t l c d) :
    |d - mapq_double S S2| ≤ 1 / 100000 := by
  obtain ⟨hq, ht, hl, hc, hd⟩ := he
  have hS : (0 : ℝ) < (S : ℝ) := by exact_mod_cast (lt_of_lt_of_le h0 h1)
  have hS2 : (1 : ℝ) ≤ (S2 : ℝ) := by exact_mod_cast h0
  have hS2pos : (0 : ℝ) < (S2 : ℝ) := by linarith
  have hSle : (S : ℝ) ≤ 2147483648 := by exact_mod_cast h2.le
  have hlt : (S2 : ℝ) ≤ (S : ℝ) := by exact_mod_cast h1
  have habs : |S - S2| = S - S2 := abs_of_nonneg (by omega)
  have hA : ((|S - S2| : Int) : ℝ) / ((S : Int) : ℝ) = 1 - (S2 : ℝ) / (S : ℝ) := by
    rw [habs]
    push_cast
    field_simp
  rw [hA] at hq
  have hr : 0 < (S2 : ℝ) / (S : ℝ) := div_pos hS2pos hS
  have hr1 : (S2 : ℝ) / (S : ℝ) ≤ 1 := by rw [div_le_one hS]; exact hlt
  have hrlo : 1 / 2147483648 ≤ (S2 : ℝ) / (S : ℝ) := by
    rw [div_le_div_iff₀ (by norm_num) hS]
    linarith
  have hx := mapq_double_eq_le S S2 h0 h1
  obtain ⟨hx0, hx94⟩ := mapq_double_bounds_le S S2 h0 h1 h2
  have hlogr : Real.log ((S : ℝ) / (S2 : ℝ)) = - Real.log ((S2 : ℝ) / (S : ℝ)) := by
    rw [Real.log_div hS.ne' hS2pos.ne', Real.log_div hS2pos.ne' hS.ne']
    ring
  generalize (S2 : ℝ) / (S : ℝ) = r at *
  rw [hx, hlogr]
  rw [hx, hlogr] at hx0 hx94
  -- the unit roundoff, against round numbers
  have hu15 : (1 : ℝ) / 2 ^ 52 ≤ 1 / 1000000000000000 := by norm_num
  have hu50 : (1 : ℝ) / 2 ^ 50 ≤ 1 / 1000000000000000 := by norm_num
  have hur : (1 : ℝ) / 2 ^ 52 ≤ 1 / 2097152 * r := by
    have : (1 : ℝ) / 2 ^ 52 = 1 / 2097152 * (1 / 2147483648) := by norm_num
    rw [this]
    exact mul_le_mul_of_nonneg_left hrlo (by norm_num)
  -- the operand of log
  rw [abs_of_nonneg (by linarith only [hr1] : (0 : ℝ) ≤ 1 - r)] at hq
  have hq' : |q - (1 - r)| ≤ 1 / 2097152 * r := by
    refine hq.trans (le_trans ?_ hur)
    exact mul_le_of_le_one_right (by norm_num) (by linarith only [hr])
  obtain ⟨hq1, hq2⟩ := abs_le.1 hq'
  have h1q : 0 < 1 - q := by nlinarith only [hq1, hq2, hr, hr1]
  rw [abs_of_pos h1q] at ht
  have ht' : |t - (1 - q)| ≤ 1 / 1000000000000000 * (1 - q) :=
    ht.trans (mul_le_mul_of_nonneg_right hu15 h1q.le)
  obtain ⟨ht1, ht2⟩ := abs_le.1 ht'
  have htr : |t - r| ≤ 5 / 10000000 * r := by
    rw [abs_le]
    constructor <;> nlinarith only [hq1, hq2, ht1, ht2, hr, hr1]
  have hlog := abs_le.1 (log_near r t hr htr)
  have htlog : |Real.log t| ≤ 22 := by
    rw [abs_le]
    constructor <;> linarith only [hlog.1, hlog.2, hx0, hx94]
  have hl' : |l - Real.log t| ≤ 1 / 1000000000000000 * 22 :=
    hl.trans (mul_le_mul hu50 htlog (abs_nonneg _) (by norm_num))
  obtain ⟨hl1, hl2⟩ := abs_le.1 hl'
  have hlabs : |l| ≤ 23 := by
    rw [abs_le]
    obtain ⟨a1, a2⟩ := abs_le.1 htlog
    constructor <;> linarith only [hl1, hl2, a1, a2]
  have hc' : |c - 4.343| ≤ 1 / 1000000000000000 * 5 :=
    hc.trans (mul_le_mul hu15 (by norm_num) (by norm_num) (by norm_num))
  obtain ⟨hc1, hc2⟩ := abs_le.1 hc'
  have hcabs : |-c| ≤ 5 := by
    rw [abs_neg, abs_le]
    constructor <;> linarith only [hc1, hc2]
  have hcl : |-c * l| ≤ 5 * 23 := by
    rw [abs_mul]
    exact mul_le_mul hcabs hlabs (abs_nonneg _) (by norm_num)
  have hd' : |d - -c * l| ≤ 1 / 1000000000000000 * (5 * 23) :=
    hd.trans (mul_le_mul hu15 hcl (abs_nonneg _) (by norm_num))
  obtain ⟨hd1, hd2⟩ := abs_le.1 hd'
  have hecl : |(c - 4.343) * l| ≤ 1 / 1000000000000000 * 5 * 23 := by
    rw [abs_mul]
    exact mul_le_mul hc' hlabs (abs_nonneg _) (by positivity)
  obtain ⟨hm1, hm2⟩ := abs_le.1 hecl
  rw [abs_le]
  constructor <;> linarith only [hlog.1, hlog.2, hd1, hd2, hm1, hm2, hl1, hl2]

/-- Below `2 ^ 31` and in exact arithmetic, the MAPQ text is the decimal text
of the integer part of the estimate. -/
theorem fmt_d_mapq (S S2 : Int) (h0 : 0 < S2) (h1 : S2 < S) (h2 : S < 2147483648) :
    fmt_d (double_to_uint32 (mapq_double S S2)) = Nat.toDigits 10 ⌊mapq_double S S2⌋₊ := by
  obtain ⟨hlo, hhi⟩ := mapq_double_bounds S S2 h0 h1 h2
  have hfl : ⌊mapq_double S S2⌋₊ < 94 := by
    rw [Nat.floor_lt hlo]
    exact_mod_cast hhi
  unfold double_to_uint32
  rw [Nat.mod_eq_of_lt (by omega)]
  exact fmt_d_of_nat _ (by omega)

/-- The first five fields of a raw-parameter line with `score != 0` are read
back as soon as the read name and the reference name are tab-free. -/
theorem write_sam_raw_head_fields (score score2 min_score : Int) (ref_pos : Nat)
    (ref_seq_name : List Char) (r : kseq_t) (strand : Int)
    (cigar md : List Char) (mismatches : Nat) (r_next : List Char)
    (p_next : Nat) (t_len : Int) (hscore : score ≠ 0)
    (hname : tab_free r.name) (href : tab_free ref_seq_name) (k : Nat) (hk : k < 5) :
    ∃ line, write_sam_raw score score2 min_score ref_pos ref_seq_name (some r) strand cigar md
        mismatches r_next p_next t_len = some line ∧
      (sam_fields line)[k]?
        = [r.name, if strand ≠ 0 then ['1', '6'] else ['0'], ref_seq_name,
            fmt_d (to_size_t (ref_pos + 1)),
            fmt_d (double_to_uint32 (mapq_double score score2))][k]? := by
  refine ⟨_, write_sam_raw_mapped score score2 min_score ref_pos ref_seq_name r strand cigar md
    mismatches r_next p_next t_len hscore, ?_⟩
  have hsplit : raw_mandatory_fields score score2 ref_pos ref_seq_name r strand cigar r_next
        p_next t_len ++ raw_tag_fields score score2 mismatches md
      = [r.name, if strand ≠ 0 then ['1', '6'] else ['0'], ref_seq_name,
          fmt_d (to_size_t (ref_pos + 1)),
          fmt_d (double_to_uint32 (mapq_double score score2))]
        ++ ([cigar, r_next, fmt_d (to_size_t (p_next + 1)), fmt_d t_len, r.seq,
              raw_qual r strand] ++ raw_tag_fields score score2 mismatches md) := rfl
  rw [hsplit]
  refine sam_fields_head _ _ ?_ (List.append_ne_nil_of_left_ne_nil (List.cons_ne_nil _ _) _)
    k hk
  intro f hf
  simp only [List.mem_cons, List.mem_singleton, List.not_mem_nil, or_false] at hf
  rcases hf with h | h | h | h | h <;> rw [h]
  · exact hname
  · by_cases hs : strand ≠ 0
    · rw [if_pos hs]; decide
    · rw [if_neg hs]; decide
  · exact href
  · exact fmt_d_tab_free _
  · exact fmt_d_tab_free _

theorem log_three_halves_bounds : 0.36 < Real.log (3 / 2) ∧ Real.log (3 / 2) < 0.46 := by
  have h1 : Real.log (3 / 2) = Real.log (5 / 4) + Real.log (6 / 5) := by
    rw [← Real.log_mul (by norm_num) (by norm_num)]
    norm_num
  have a1 := Real.log_le_sub_one_of_pos (show (0 : ℝ) < 5 / 4 by norm_num)
  have a2 := Real.log_le_sub_one_of_pos (show (0 : ℝ) < 6 / 5 by norm_num)
  have b1 := Real.one_sub_inv_le_log_of_pos (show (0 : ℝ) < 5 / 4 by norm_num)
  have b2 := Real.one_sub_inv_le_log_of_pos (show (0 : ℝ) < 6 / 5 by norm_num)
  norm_num at a1 a2 b1 b2
  constructor <;> rw [h1] <;> linarith

/-- The estimate for `score = 3`, `score2 = 2` lies strictly between 1.5 and
1.999. -/
theorem mapq_double_3_2 : 1.5 < mapq_double 3 2 ∧ mapq_double 3 2 < 1.999 := by
  rw [mapq_double_eq 3 2 (by decide) (by decide)]
  obtain ⟨hlo, hhi⟩ := log_three_halves_bounds
  have : ((3 : Int) : ℝ) / ((2 : Int) : ℝ) = 3 / 2 := by norm_num
  rw [this]
  constructor <;> nlinarith

theorem floor_mapq_double_3_2 : ⌊mapq_double 3 2⌋₊ = 1 := by
  obtain ⟨hlo, hhi⟩ := mapq_double_3_2
  rw [Nat.floor_eq_iff (by linarith)]
  constructor
  · norm_num; linarith
  · norm_num; linarith

theorem round_mapq_double_3_2 : round (mapq_double 3 2) = 2 := by
  obtain ⟨hlo, hhi⟩ := mapq_double_3_2
  rw [round_eq, Int.floor_eq_iff]
  constructor
  · norm_num; linarith
  · norm_num; linarith

/-- The estimate for `score = 100`, `score2 = 50` is more than `10 ^ -5` away
from 3 and from 4. -/
theorem mapq_double_100_50_margin :
    (3 : ℝ) + 1 / 100000 ≤ mapq_double 100 50 ∧ mapq_double 100 50 + 1 / 100000 < 3 + 1 := by
  rw [mapq_double_eq 100 50 (by decide) (by decide)]
  have h1 := Real.log_two_gt_d9
  have h2 := Real.log_two_lt_d9
  have : ((100 : Int) : ℝ) / ((50 : Int) : ℝ) = 2 := by norm_num
  rw [this]
  constructor <;> nlinarith

/-- A value that keeps a margin `e >= 0` to the integers `n` and `n + 1` has
integer part `n`, and so has every value within `e` of it. -/
theorem floor_of_margin (x e : ℝ) (n : Nat) (he : 0 ≤ e) (hlo : (n : ℝ) + e ≤ x)
    (hhi : x + e < (n : ℝ) + 1) :
    ⌊x⌋₊ = n ∧ ∀ d : ℝ, |d - x| ≤ e → ⌊d⌋₊ = n := by
  have hn : (0 : ℝ) ≤ (n : ℝ) := Nat.cast_nonneg n
  constructor
  · rw [Nat.floor_eq_iff (by linarith)]
    constructor <;> linarith
  · intro d hd
    obtain ⟨h1, h2⟩ := abs_le.1 hd
    rw [Nat.floor_eq_iff (by linarith)]
    constructor <;> linarith

/-- In exact arithmetic and for 32-bit scores with `0 < S2 < S`, the
conversion to `uint32_t` keeps the integer part as it is. -/
theorem double_to_uint32_mapq (S S2 : Int) (h0 : 0 < S2) (h1 : S2 < S) (h2 : S < 2147483648) :
    double_to_uint32 (mapq_double S S2) = ⌊mapq_double S S2⌋₊ := by
  obtain ⟨hlo, hhi⟩ := mapq_double_bounds S S2 h0 h1 h2
  have hfl : ⌊mapq_double S S2⌋₊ < 94 := by
    rw [Nat.floor_lt hlo]
    exact_mod_cast hhi
  exact Nat.mod_eq_of_lt (by omega)

/-- Every floating-point evaluation of the estimate for `score = 3`,
`score2 = 2` that `double_eval` admits truncates to 1. -/
theorem double_eval_3_2 (q t l c d : ℝ) (he : double_eval 3 2 q t l c d) :
    double_to_uint32 d = 1 := by
  obtain ⟨hlo, hhi⟩ := mapq_double_3_2
  obtain ⟨_, hnear⟩ := floor_of_margin (mapq_double 3 2) (1 / 100000) 1 (by norm_num)
    (by norm_num; linarith only [hlo]) (by norm_num; linarith only [hhi])
  unfold double_to_uint32
  rw [hnear d (double_eval_near 3 2 q t l c d (by decide) (by decide) (by decide) he)]

/-- C5 (as amended). Raw-parameter form, mapping quality: for 32-bit scores
with `0 < S2 < S`, the MAPQ field of the written line (the fifth field) is the
decimal text of the `uint32_t` obtained by truncating, not rounding, a
floating-point evaluation `d` of `-4.343 * log(1 - |S - S2| / S)` (one that
`double_eval` admits); and whenever the exact value
`x = -4.343 * ln(1 - |S - S2| / S)` keeps a margin of `10 ^ -5` to the integers
around it (`n + 10 ^ -5 <= x` and `x + 10 ^ -5 < n + 1`), the field is the
decimal text of `n`, the integer part of `x`, and every floating-point
evaluation that `double_eval` admits truncates to `n`. -/
theorem write_sam_raw_mapq_truncated (S S2 min_score : Int) (ref_pos : Nat)
    (ref_seq_name : List Char) (r : kseq_t) (strand : Int)
    (cigar md : List Char) (mismatches : Nat) (r_next : List Char)
    (p_next : Nat) (t_len : Int)
    (h0 : 0 < S2) (h1 : S2 < S) (h2 : S < 2147483648)
    (hname : tab_free r.name) (href : tab_free ref_seq_name) :
    ∃ (line : List Char) (q t l c d : ℝ),
      write_sam_raw S S2 min_score ref_pos ref_seq_name (some r) strand cigar md
        mismatches r_next p_next t_len = some line ∧
      double_eval S S2 q t l c d ∧
      (sam_fields line)[4]? = some (Nat.toDigits 10 (double_to_uint32 d)) ∧
      ∀ n : Nat,
        (n : ℝ) + 1 / 100000
            ≤ (-4.343 : ℝ) * Real.log (1 - ((|S - S2| : Int) : ℝ) / ((S : Int) : ℝ)) →
          (-4.343 : ℝ) * Real.log (1 - ((|S - S2| : Int) : ℝ) / ((S : Int) : ℝ))
            + 1 / 100000 < (n : ℝ) + 1 →
          (sam_fields line)[4]? = some (Nat.toDigits 10 n) ∧
          ∀ q1 t1 l1 c1 d1 : ℝ, double_eval S S2 q1 t1 l1 c1 d1 → double_to_uint32 d1 = n := by
  obtain ⟨line, hline, hf⟩ := write_sam_raw_head_fields S S2 min_score ref_pos ref_seq_name r
    strand cigar md mismatches r_next p_next t_len (by omega) hname href 4 (by decide)
  have hfield : (sam_fields line)[4]? = some (Nat.toDigits 10 ⌊mapq_double S S2⌋₊) := by
    rw [hf, fmt_d_mapq S S2 h0 h1 h2]
    rfl
  refine ⟨line, _, _, _, _, _, hline, double_eval_exact S S2, ?_, ?_⟩
  · rw [double_to_uint32_mapq S S2 h0 h1 h2]
    exact hfield
  · intro n hlo hhi
    obtain ⟨hfloor, hnear⟩ := floor_of_margin (mapq_double S S2) (1 / 100000) n (by norm_num)
      hlo hhi
    refine ⟨by rw [hfield, hfloor], ?_⟩
    intro q1 t1 l1 c1 d1 he
    obtain ⟨_, hub⟩ := mapq_double_bounds S S2 h0 h1 h2
    have hlo2 : (n : ℝ) + 1 / 100000 ≤ mapq_double S S2 := hlo
    have hn : (n : ℝ) < 94 := by linarith only [hlo2, hub]
    have hn2 : n < 94 := by exact_mod_cast hn
    unfold double_to_uint32
    rw [hnear d1 (double_eval_near S S2 q1 t1 l1 c1 d1 h0 h1.le h2 he)]
    exact Nat.mod_eq_of_lt (by omega)

/-- Witness of C5 (as amended): the spec's worked example, `score = 100` and
`score2 = 50`, whose estimate 3.0103 keeps the margin to 3 and to 4, writes
MAPQ `3`, and every floating-point evaluation truncates to 3. -/
theorem write_sam_raw_mapq_truncated_witness :
    (0 : Int) < 50 ∧ (50 : Int) < 100 ∧ (100 : Int) < 2147483648 ∧
    ∃ line, write_sam_raw 100 50 0 99 "chr1".toList (some read_fq) 0 "4M".toList "4".toList 0
        "*".toList 0 0 = some line ∧ (sam_fields line)[4]? = some "3".toList ∧
      ∀ q t l c d : ℝ, double_eval 100 50 q t l c d → double_to_uint32 d = 3 := by
  have hlo : ((3 : Nat) : ℝ) + 1 / 100000 ≤ mapq_double 100 50 := by
    have := mapq_double_100_50_margin.1
    norm_num at this ⊢
    linarith
  have hhi : mapq_double 100 50 + 1 / 100000 < ((3 : Nat) : ℝ) + 1 := by
    have := mapq_double_100_50_margin.2
    norm_num at this ⊢
    linarith
  obtain ⟨line, _, _, _, _, _, hline, _, _, hn⟩ := write_sam_raw_mapq_truncated 100 50 0 99
    "chr1".toList read_fq 0 "4M".toList "4".toList 0 "*".toList 0 0 (by decide) (by decide)
    (by decide) (by decide) (by decide)
  obtain ⟨hfield, hall⟩ := hn 3 hlo hhi
  exact ⟨by decide, by decide, by decide, line, hline, hfield, hall⟩

/-- Counterexample to C5 as stated: for `score = 3`, `score2 = 2` the MAPQ
field written is `1`, and 1 is what every floating-point evaluation of the
estimate truncates to, while `round(-4.343 * ln(1 - |3 - 2| / 3))` is `2`. -/
theorem write_sam_raw_mapq_not_rounded :
    (∃ line, write_sam_raw 3 2 0 99 "chr1".toList (some read_fq) 0 "4M".toList "4".toList 0
        "*".toList 0 0 = some line ∧ (sam_fields line)[4]? = some "1".toList) ∧
    (∀ q t l c d : ℝ, double_eval 3 2 q t l c d → double_to_uint32 d = 1) ∧
    round ((-4.343 : ℝ) * Real.log (1 - ((|(3 : Int) - 2| : Int) : ℝ) / ((3 : Int) : ℝ)))
      = 2 := by
  refine ⟨?_, double_eval_3_2, round_mapq_double_3_2⟩
  obtain ⟨line, hline, hf⟩ := write_sam_raw_head_fields 3 2 0 99 "chr1".toList read_fq 0
    "4M".toList "4".toList 0 "*".toList 0 0 (by decide) (by decide) (by decide) 4 (by decide)
  refine ⟨line, hline, ?_⟩
  rw [hf, fmt_d_mapq 3 2 (by decide) (by decide) (by decide), floor_mapq_double_3_2]
  rfl

/-- The first eight fields of a record-form line are read back as soon as
the strings among them are tab-free, whatever follows them. -/
theorem write_sam_head_fields (s : sam_t) (r : kseq_t) (hread : s.read = some r)
    (hname : tab_free r.name) (hrname : tab_free s.rname) (hcigar : tab_free s.cigar)
    (hrnext : tab_free s.rnext) :
    ∃ line, write_sam s = some line ∧
      ∀ k, k < 8 → (sam_fields line)[k]?
        = [r.name, fmt_d s.flag, s.rname, fmt_d s.pos, fmt_d s.mapq, s.cigar, s.rnext,
            fmt_d s.pnext][k]? := by
  have hH : ∀ f ∈ [r.name, fmt_d s.flag, s.rname, fmt_d s.pos, fmt_d s.mapq, s.cigar, s.rnext,
      fmt_d s.pnext], tab_free f := by
    intro f hf
    simp only [List.mem_cons, List.mem_singleton, List.not_mem_nil, or_false] at hf
    rcases hf with h | h | h | h | h | h | h | h <;> rw [h]
    · exact hname
    · exact fmt_d_tab_free _
    · exact hrname
    · exact fmt_d_tab_free _
    · exact fmt_d_tab_free _
    · exact hcigar
    · exact hrnext
    · exact fmt_d_tab_free _
  by_cases hflag : s.flag &&& SAM_UNMAPPED = 0
  · refine ⟨_, write_sam_mapped s r hread hflag, ?_⟩
    intro k hk
    have hsplit : mandatory_fields s r
        = [r.name, fmt_d s.flag, s.rname, fmt_d s.pos, fmt_d s.mapq, s.cigar, s.rnext,
            fmt_d s.pnext]
          ++ [fmt_d s.tlen, r.seq, (r.qual.s).getD ['*']] := rfl
    rw [hsplit, List.append_assoc]
    exact sam_fields_head _ _ hH (List.append_ne_nil_of_left_ne_nil (List.cons_ne_nil _ _) _)
      k hk
  · refine ⟨_, write_sam_unmapped s r hread hflag, ?_⟩
    intro k hk
    have hsplit : mandatory_fields s r
        = [r.name, fmt_d s.flag, s.rname, fmt_d s.pos, fmt_d s.mapq, s.cigar, s.rnext,
            fmt_d s.pnext]
          ++ [fmt_d s.tlen, r.seq, (r.qual.s).getD ['*']] := rfl
    rw [hsplit]
    exact sam_fields_head _ _ hH (List.cons_ne_nil _ _) k hk

/-! ## Positions -/

/-- The eleven mandatory fields of a raw-parameter line with `score != 0` are
read back when they are tab-free. -/
theorem write_sam_raw_fields_at (score score2 min_score : Int) (ref_pos : Nat)
    (ref_seq_name : List Char) (r : kseq_t) (strand : Int)
    (cigar md : List Char) (mismatches : Nat) (r_next : List Char)
    (p_next : Nat) (t_len : Int) (hscore : score ≠ 0)
    (hname : tab_free r.name) (href : tab_free ref_seq_name) (hcigar : tab_free cigar)
    (hrnext : tab_free r_next) (hseq : tab_free r.seq)
    (hqual : tab_free (raw_qual r strand)) :
    ∃ line, write_sam_raw score score2 min_score ref_pos ref_seq_name (some r) strand cigar md
        mismatches r_next p_next t_len = some line ∧
      ∀ k, k < 11 → (sam_fields line)[k]?
        = (raw_mandatory_fields score score2 ref_pos ref_seq_name r strand cigar r_next p_next
            t_len)[k]? := by
  have hF := raw_mandatory_fields_tab_free score score2 ref_pos ref_seq_name r strand cigar
    r_next p_next t_len hname href hcigar hrnext hseq hqual
  refine ⟨_, write_sam_raw_mapped score score2 min_score ref_pos ref_seq_name r strand cigar md
    mismatches r_next p_next t_len hscore, ?_⟩
  intro k hk
  exact sam_fields_head _ _ hF (raw_tag_fields_ne_nil _ _ _ _) k
    (by rw [raw_mandatory_fields_length]; exact hk)

/-- While the one-based positions fit a 32-bit `int`, the raw-parameter form
writes POS as the decimal text of `ref_pos + 1` and PNEXT as that of
`p_next + 1`. -/
theorem write_sam_raw_pos_in_range (score score2 min_score : Int) (ref_pos : Nat)
    (ref_seq_name : List Char) (r : kseq_t) (strand : Int)
    (cigar md : List Char) (mismatches : Nat) (r_next : List Char)
    (p_next : Nat) (t_len : Int) (hscore : score ≠ 0)
    (hpos : ref_pos + 1 < 2147483648) (hpnext : p_next + 1 < 2147483648)
    (hname : tab_free r.name) (href : tab_free ref_seq_name) (hcigar : tab_free cigar)
    (hrnext : tab_free r_next) (hseq : tab_free r.seq)
    (hqual : tab_free (raw_qual r strand)) :
    ∃ line, write_sam_raw score score2 min_score ref_pos ref_seq_name (some r) strand cigar md
        mismatches r_next p_next t_len = some line ∧
      (sam_fields line)[3]? = some (Nat.toDigits 10 (ref_pos + 1)) ∧
      (sam_fields line)[7]? = some (Nat.toDigits 10 (p_next + 1)) := by
  obtain ⟨line, hline, hf⟩ := write_sam_raw_fields_at score score2 min_score ref_pos
    ref_seq_name r strand cigar md mismatches r_next p_next t_len hscore hname href hcigar
    hrnext hseq hqual
  have h3 : fmt_d (to_size_t ((ref_pos : Int) + 1)) = Nat.toDigits 10 (ref_pos + 1) := by
    rw [to_size_t_succ ref_pos (by omega)]
    exact fmt_d_of_nat _ hpos
  have h7 : fmt_d (to_size_t ((p_next : Int) + 1)) = Nat.toDigits 10 (p_next + 1) := by
    rw [to_size_t_succ p_next (by omega)]
    exact fmt_d_of_nat _ hpnext
  refine ⟨line, hline, ?_, ?_⟩
  · rw [hf 3 (by decide)]
    simp only [raw_mandatory_fields, List.getElem?_cons_succ, List.getElem?_cons_zero, h3]
  · rw [hf 7 (by decide)]
    simp only [raw_mandatory_fields, List.getElem?_cons_succ, List.getElem?_cons_zero, h7]

/-- C6 (the code at the failing input). Raw-parameter form with
`ref_pos = 2147483647` and `p_next = 4294967295`: the POS field written is
`-2147483648`, not `2147483648`, and the PNEXT field written is `0`, not
`4294967296`. -/
theorem write_sam_raw_pos_wraps :
    ∃ line, write_sam_raw 100 50 0 2147483647 "chr1".toList (some read_fq) 0 "4M".toList
        "4".toList 0 "*".toList 4294967295 0 = some line ∧
      (sam_fields line)[3]? = some "-2147483648".toList ∧
      (sam_fields line)[7]? = some "0".toList := by
  obtain ⟨line, hline, hf⟩ := write_sam_raw_fields_at 100 50 0 2147483647 "chr1".toList read_fq 0
    "4M".toList "4".toList 0 "*".toList 4294967295 0 (by decide) (by decide) (by decide)
    (by decide) (by decide) (by decide) (by decide)
  have h3 : fmt_d (to_size_t (((2147483647 : Nat) : Int) + 1)) = "-2147483648".toList := by
    decide
  have h7 : fmt_d (to_size_t (((4294967295 : Nat) : Int) + 1)) = "0".toList := by
    decide
  refine ⟨line, hline, ?_, ?_⟩
  · rw [hf 3 (by decide)]
    simp only [raw_mandatory_fields, List.getElem?_cons_succ, List.getElem?_cons_zero, h3]
  · rw [hf 7 (by decide)]
    simp only [raw_mandatory_fields, List.getElem?_cons_succ, List.getElem?_cons_zero, h7]

/-- While the stored positions fit a 32-bit `int`, the record form writes POS
and PNEXT as the decimal text of `pos` and `pnext` themselves, without any
offset. -/
theorem write_sam_pos_in_range (s : sam_t) (r : kseq_t) (hread : s.read = some r)
    (hpos : s.pos < 2147483648) (hpnext : s.pnext < 2147483648)
    (hname : tab_free r.name) (hrname : tab_free s.rname) (hcigar : tab_free s.cigar)
    (hrnext : tab_free s.rnext) :
    ∃ line, write_sam s = some line ∧
      (sam_fields line)[3]? = some (Nat.toDigits 10 s.pos) ∧
      (sam_fields line)[7]? = some (Nat.toDigits 10 s.pnext) := by
  obtain ⟨line, hline, hf⟩ := write_sam_head_fields s r hread hname hrname hcigar hrnext
  refine ⟨line, hline, ?_, ?_⟩
  · rw [hf 3 (by decide)]
    simp only [List.getElem?_cons_succ, List.getElem?_cons_zero, fmt_d_of_nat _ hpos]
  · rw [hf 7 (by decide)]
    simp only [List.getElem?_cons_succ, List.getElem?_cons_zero, fmt_d_of_nat _ hpnext]

/-- C7 (the code at the failing input). Record form on a record with
`pos = 2147483648` and `pnext = 4294967301`: the POS field written is
`-2147483648` and the PNEXT field written is `5`. -/
theorem write_sam_pos_wraps :
    write_sam rec_far
        = some "r1\t0\tchr1\t-2147483648\t60\t4M\t*\t5\t0\tACGT\t!!##\tAS:i:0\tNM:i:0\tMD:Z:4\n".toList ∧
      ∃ line, write_sam rec_far = some line ∧
        (sam_fields line)[3]? = some "-2147483648".toList ∧
        (sam_fields line)[7]? = some "5".toList := by
  have h : write_sam rec_far
      = some "r1\t0\tchr1\t-2147483648\t60\t4M\t*\t5\t0\tACGT\t!!##\tAS:i:0\tNM:i:0\tMD:Z:4\n".toList := by
    decide
  exact ⟨h, _, h, by decide, by decide⟩

/-! ## Optional tags -/

theorem is_tag_append (t u x : List Char) (h : u.length = t.length) :
    is_tag t (u ++ x) ↔ u = t := by
  unfold is_tag
  rw [← h, List.take_left' rfl]

theorem sam_fields_tags (s : sam_t) (r : kseq_t) (hread : s.read = some r)
    (hflag : s.flag &&& SAM_UNMAPPED = 0)
    (hname : tab_free r.name) (hrname : tab_free s.rname) (hcigar : tab_free s.cigar)
    (hrnext : tab_free s.rnext) (hseq : tab_free r.seq)
    (hqual : ∀ q, r.qual.s = some q → tab_free q) (hmd : tab_free s.md) :
    ∃ line, write_sam s = some line ∧ (sam_fields line).drop 11 = tag_fields s := by
  have hF : ∀ f ∈ mandatory_fields s r ++ tag_fields s, tab_free f := by
    intro f hf
    rcases List.mem_append.1 hf with hf | hf
    · exact mandatory_fields_tab_free s r hname hrname hcigar hrnext hseq hqual f hf
    · exact tag_fields_tab_free s hmd f hf
  have hne : mandatory_fields s r ++ tag_fields s ≠ [] := by
    intro h
    exact tag_fields_ne_nil s (List.append_eq_nil.1 h).2
  refine ⟨_, write_sam_mapped s r hread hflag, ?_⟩
  rw [sam_fields_line _ hF hne]
  exact List.drop_left' (mandatory_fields_length s r)

/-- Presence and place of the ZS tag in the record form, its value standing
as `%d` writes it: when the UNMAPPED bit is clear (read non-null, string
fields free of tab and newline), the tags of the written line, the fields
after the eleventh, contain a `ZS:i:` tag if and only if `zs > 0`; when
`zs > 0` the tags are AS, NM, `ZS:i:` followed by `fmt_d zs`, MD in this order,
and otherwise they are AS, NM, MD. -/
theorem write_sam_zs_tag (s : sam_t) (r : kseq_t) (hread : s.read = some r)
    (hflag : s.flag &&& SAM_UNMAPPED = 0)
    (hname : tab_free r.name) (hrname : tab_free s.rname) (hcigar : tab_free s.cigar)
    (hrnext : tab_free s.rnext) (hseq : tab_free r.seq)
    (hqual : ∀ q, r.qual.s = some q → tab_free q) (hmd : tab_free s.md) :
    ∃ line, write_sam s = some line ∧
      ((∃ f ∈ (sam_fields line).drop 11, is_tag "ZS:i:".toList f) ↔ s.zs > 0) ∧
      (s.zs > 0 → (sam_fields line).drop 11
        = ["AS:i:".toList ++ fmt_d s.as, "NM:i:".toList ++ fmt_d s.nm,
            "ZS:i:".toList ++ fmt_d s.zs, "MD:Z:".toList ++ s.md]) ∧
      (¬ s.zs > 0 → (sam_fields line).drop 11
        = ["AS:i:".toList ++ fmt_d s.as, "NM:i:".toList ++ fmt_d s.nm,
            "MD:Z:".toList ++ s.md]) := by
  obtain ⟨line, hline, htags⟩ := sam_fields_tags s r hread hflag hname hrname hcigar hrnext
    hseq hqual hmd
  refine ⟨line, hline, ?_, ?_, ?_⟩
  · rw [htags]
    unfold tag_fields
    by_cases hz : s.zs > 0
    · simp only [hz, if_true, iff_true]
      exact ⟨_, by simp only [List.mem_append, List.mem_singleton]; exact Or.inl (Or.inr rfl),
        (is_tag_append _ _ _ rfl).2 rfl⟩
    · simp only [hz, if_false, iff_false, List.append_nil]
      rintro ⟨f, hf, htag⟩
      simp only [List.mem_append, List.mem_cons, List.mem_singleton, List.not_mem_nil,
        or_false] at hf
      rcases hf with (hf | hf) | hf <;> rw [hf] at htag
      · exact absurd ((is_tag_append _ _ _ (by decide)).1 htag) (by decide)
      · exact absurd ((is_tag_append _ _ _ (by decide)).1 htag) (by decide)
      · exact absurd ((is_tag_append _ _ _ (by decide)).1 htag) (by decide)
  · intro hz
    rw [htags]
    unfold tag_fields
    rw [if_pos hz]
    rfl
  · intro hz
    rw [htags]
    unfold tag_fields
    rw [if_neg hz]
    rfl

/-- The ZS tag on the sample mapped record, whose `zs` is 2. -/
theorem write_sam_zs_tag_witness :
    ∃ line, write_sam rec_mapped = some line ∧
      ((∃ f ∈ (sam_fields line).drop 11, is_tag "ZS:i:".toList f) ↔ rec_mapped.zs > 0) ∧
      (rec_mapped.zs > 0 → (sam_fields line).drop 11
        = ["AS:i:".toList ++ fmt_d rec_mapped.as, "NM:i:".toList ++ fmt_d rec_mapped.nm,
            "ZS:i:".toList ++ fmt_d rec_mapped.zs, "MD:Z:".toList ++ rec_mapped.md]) ∧
      (¬ rec_mapped.zs > 0 → (sam_fields line).drop 11
        = ["AS:i:".toList ++ fmt_d rec_mapped.as, "NM:i:".toList ++ fmt_d rec_mapped.nm,
            "MD:Z:".toList ++ rec_mapped.md]) :=
  write_sam_zs_tag rec_mapped read_fq rfl (by decide) (by decide) (by decide)
    (by decide) (by decide) (by decide) (by intro q hq; cases hq; decide) (by decide)

theorem fmt_d_int32 (v : Int) (h : -2147483648 ≤ v ∧ v < 2147483648) : fmt_d v = dec v := by
  unfold fmt_d
  rw [to_int32_of_range v h.1 h.2]

/-- C8 (the code at the failing input). Record form, ZS tag, on a record
with the UNMAPPED bit clear whose `zs` is `4294967296`: `zs > 0`, so the tag is
written, between NM and MD, but it carries `0`, not the value `zs`, because
the `size_t` member goes through `%d`. -/
theorem write_sam_zs_wraps :
    rec_big_zs.flag &&& SAM_UNMAPPED = 0 ∧ rec_big_zs.zs > 0 ∧
    write_sam rec_big_zs
      = some "r1\t16\tchr1\t100\t60\t4M\t*\t0\t0\tACGT\t!!##\tAS:i:4\tNM:i:0\tZS:i:0\tMD:Z:4\n".toList :=
  ⟨by decide, by decide, by decide⟩

theorem raw_tag_fields_tab_free (score score2 : Int) (mismatches : Nat) (md : List Char)
    (hmd : tab_free md) : ∀ f ∈ raw_tag_fields score score2 mismatches md, tab_free f := by
  intro f hf
  unfold raw_tag_fields at hf
  by_cases hz : score2 > 0
  · rw [if_pos hz] at hf
    simp only [List.cons_append, List.nil_append, List.mem_cons, List.mem_singleton,
      List.not_mem_nil, or_false] at hf
    rcases hf with h | h | h | h <;> rw [h]
    · exact tag_text_tab_free _ (by decide) _
    · exact tag_text_tab_free _ (by decide) _
    · exact tag_text_tab_free _ (by decide) _
    · exact tab_free_append (by decide) hmd
  · rw [if_neg hz] at hf
    simp only [List.cons_append, List.nil_append, List.append_nil, List.mem_cons,
      List.mem_singleton, List.not_mem_nil, or_false] at hf
    rcases hf with h | h | h <;> rw [h]
    · exact tag_text_tab_free _ (by decide) _
    · exact tag_text_tab_free _ (by decide) _
    · exact tab_free_append (by decide) hmd

/-- The tags of a raw-parameter line with `score != 0`, the fields after the
eleventh, are read back when the fields are tab-free: AS, NM, ZS exactly when
`score2 > 0`, MD, every number standing as `%d` writes it. -/
theorem write_sam_raw_tags_at (score score2 min_score : Int) (ref_pos : Nat)
    (ref_seq_name : List Char) (r : kseq_t) (strand : Int)
    (cigar md : List Char) (mismatches : Nat) (r_next : List Char)
    (p_next : Nat) (t_len : Int) (hscore : score ≠ 0)
    (hname : tab_free r.name) (href : tab_free ref_seq_name) (hcigar : tab_free cigar)
    (hrnext : tab_free r_next) (hseq : tab_free r.seq)
    (hqual : tab_free (raw_qual r strand)) (hmd : tab_free md) :
    ∃ line, write_sam_raw score score2 min_score ref_pos ref_seq_name (some r) strand cigar md
        mismatches r_next p_next t_len = some line ∧
      (sam_fields line).drop 11 = raw_tag_fields score score2 mismatches md := by
  have hF : ∀ f ∈ raw_mandatory_fields score score2 ref_pos ref_seq_name r strand cigar r_next
      p_next t_len ++ raw_tag_fields score score2 mismatches md, tab_free f := by
    intro f hf
    rcases List.mem_append.1 hf with hf | hf
    · exact raw_mandatory_fields_tab_free score score2 ref_pos ref_seq_name r strand cigar r_next
        p_next t_len hname href hcigar hrnext hseq hqual f hf
    · exact raw_tag_fields_tab_free score score2 mismatches md hmd f hf
  have hne : raw_mandatory_fields score score2 ref_pos ref_seq_name r strand cigar r_next
      p_next t_len ++ raw_tag_fields score score2 mismatches md ≠ [] := by
    intro h
    exact raw_tag_fields_ne_nil score score2 mismatches md (List.append_eq_nil.1 h).2
  refine ⟨_, write_sam_raw_mapped score score2 min_score ref_pos ref_seq_name r strand cigar md
    mismatches r_next p_next t_len hscore, ?_⟩
  rw [sam_fields_line _ hF hne]
  exact List.drop_left' (raw_mandatory_fields_length score score2 ref_pos ref_seq_name r strand
    cigar r_next p_next t_len)

/-- C9 (the code at the failing input). Raw-parameter form, optional tags,
on a call with `score = 100`, `score2 = 50` and `mismatches = 4294967297`: the
tag block is there, AS, NM, ZS and MD in this order, but the NM tag written is
`NM:i:1`, not `NM:i:4294967297`, because the `size_t` argument goes through
`%d`. -/
theorem write_sam_raw_nm_wraps :
    ∃ line, write_sam_raw 100 50 0 99 "chr1".toList (some read_fq) 0 "4M".toList "4".toList
        4294967297 "*".toList 0 0 = some line ∧
      (sam_fields line).drop 11
        = ["AS:i:100".toList, "NM:i:1".toList, "ZS:i:50".toList, "MD:Z:4".toList] := by
  obtain ⟨line, hline, htags⟩ := write_sam_raw_tags_at 100 50 0 99 "chr1".toList read_fq 0
    "4M".toList "4".toList 4294967297 "*".toList 0 0 (by decide) (by decide) (by decide)
    (by decide) (by decide) (by decide) (by decide) (by decide)
  refine ⟨line, hline, ?_⟩
  rw [htags]
  decide

/-! ## The two forms agree -/

/-- The eleven mandatory fields of a record-form line are read back when the
strings among them are tab-free, whatever tags follow. -/
theorem write_sam_fields_at (s : sam_t) (r : kseq_t) (hread : s.read = some r)
    (hname : tab_free r.name) (hrname : tab_free s.rname) (hcigar : tab_free s.cigar)
    (hrnext : tab_free s.rnext) (hseq : tab_free r.seq)
    (hqual : ∀ q, r.qual.s = some q → tab_free q) :
    ∃ line, write_sam s = some line ∧
      ∀ k, k < 11 → (sam_fields line)[k]? = (mandatory_fields s r)[k]? := by
  have hF := mandatory_fields_tab_free s r hname hrname hcigar hrnext hseq hqual
  by_cases hflag : s.flag &&& SAM_UNMAPPED = 0
  · refine ⟨_, write_sam_mapped s r hread hflag, ?_⟩
    intro k hk
    exact sam_fields_head _ _ hF (tag_fields_ne_nil s) k
      (by rw [mandatory_fields_length]; exact hk)
  · refine ⟨_, write_sam_unmapped s r hread hflag, ?_⟩
    intro k _
    rw [sam_fields_line _ hF (by simp [mandatory_fields])]

theorem mandatory_fields_qual (s : sam_t) (r : kseq_t) :
    (mandatory_fields s r)[10]? = some ((r.qual.s).getD ['*']) := by
  simp only [mandatory_fields, List.getElem?_cons_succ, List.getElem?_cons_zero]

theorem raw_mandatory_fields_qual (score score2 : Int) (ref_pos : Nat)
    (ref_seq_name : List Char) (r : kseq_t) (strand : Int) (cigar r_next : List Char)
    (p_next : Nat) (t_len : Int) :
    (raw_mandatory_fields score score2 ref_pos ref_seq_name r strand cigar r_next p_next
      t_len)[10]? = some (raw_qual r strand) := by
  simp only [raw_mandatory_fields, List.getElem?_cons_succ, List.getElem?_cons_zero]

theorem raw_qual_absent (r : kseq_t) (strand : Int) (hq : r.qual.s = none) :
    raw_qual r strand = ['*'] := by
  unfold raw_qual
  rw [hq]

/-- C11. Absent quality renders `*`: for a read whose quality string is null
(the strings before QUAL being tab-free), the QUAL field, the eleventh field
of the line, is exactly `*` in the record form, and in the raw-parameter form
with `score != 0` it is exactly `*` whatever `strand` is. -/
theorem write_sam_qual_absent (s : sam_t) (r : kseq_t) (hread : s.read = some r)
    (hq : r.qual.s = none)
    (hname : tab_free r.name) (hseq : tab_free r.seq)
    (hrname : tab_free s.rname) (hcigar : tab_free s.cigar) (hrnext : tab_free s.rnext)
    (score score2 min_score : Int) (ref_pos : Nat) (ref_seq_name : List Char) (strand : Int)
    (cigar md : List Char) (mismatches : Nat) (r_next : List Char) (p_next : Nat)
    (t_len : Int) (hscore : score ≠ 0)
    (href : tab_free ref_seq_name) (hcigar2 : tab_free cigar) (hrnext2 : tab_free r_next) :
    (∃ line, write_sam s = some line ∧ (sam_fields line)[10]? = some ['*']) ∧
    (∃ line, write_sam_raw score score2 min_score ref_pos ref_seq_name (some r) strand cigar
        md mismatches r_next p_next t_len = some line ∧
      (sam_fields line)[10]? = some ['*']) := by
  constructor
  · obtain ⟨line, hline, hf⟩ := write_sam_fields_at s r hread hname hrname hcigar hrnext hseq
      (by intro q hq2; rw [hq] at hq2; cases hq2)
    refine ⟨line, hline, ?_⟩
    rw [hf 10 (by decide), mandatory_fields_qual, hq]
    rfl
  · obtain ⟨line, hline, hf⟩ := write_sam_raw_fields_at score score2 min_score ref_pos
      ref_seq_name r strand cigar md mismatches r_next p_next t_len hscore hname href hcigar2
      hrnext2 hseq (by rw [raw_qual_absent r strand hq]; decide)
    refine ⟨line, hline, ?_⟩
    rw [hf 10 (by decide), raw_mandatory_fields_qual, raw_qual_absent r strand hq]

/-- Witness of C11 on the sample read without quality: an unmapped default
record, and raw-parameter calls on the reverse and on the forward strand. -/
theorem write_sam_qual_absent_witness :
    ((∃ line, write_sam (sam_t.ctor (some read_fa)) = some line ∧
        (sam_fields line)[10]? = some ['*']) ∧
      (∃ line, write_sam_raw 100 50 0 99 "chr1".toList (some read_fa) 1 "4M".toList
          "4".toList 0 "*".toList 0 0 = some line ∧
        (sam_fields line)[10]? = some ['*'])) ∧
    ((∃ line, write_sam (sam_t.ctor (some read_fa)) = some line ∧
        (sam_fields line)[10]? = some ['*']) ∧
      (∃ line, write_sam_raw 100 50 0 99 "chr1".toList (some read_fa) 0 "4M".toList
          "4".toList 0 "*".toList 0 0 = some line ∧
        (sam_fields line)[10]? = some ['*'])) :=
  ⟨write_sam_qual_absent (sam_t.ctor (some read_fa)) read_fa rfl rfl (by decide) (by decide)
      (by decide) (by decide) (by decide) 100 50 0 99 "chr1".toList 1 "4M".toList "4".toList 0
      "*".toList 0 0 (by decide) (by decide) (by decide) (by decide),
   write_sam_qual_absent (sam_t.ctor (some read_fa)) read_fa rfl rfl (by decide) (by decide)
      (by decide) (by decide) (by decide) 100 50 0 99 "chr1".toList 0 "4M".toList "4".toList 0
      "*".toList 0 0 (by decide) (by decide) (by decide) (by decide)⟩

/-! ## The default record -/

theorem defaults_text :
    "\t4\t*\t0\t255\t*\t*\t0\t0\t".toList
      = ['\t', '4', '\t', '*', '\t', '0', '\t', '2', '5', '5', '\t', '*', '\t', '*', '\t', '0',
          '\t', '0', '\t'] := by
  decide

/-- The line of the default fields around a name, a sequence and a quality
text. -/
theorem line_of_defaults (n sq q : List Char) :
    List.intercalate ['\t'] [n, ['4'], ['*'], ['0'], ['2', '5', '5'], ['*'], ['*'], ['0'],
        ['0'], sq, q] ++ ['\n']
      = n ++ "\t4\t*\t0\t255\t*\t*\t0\t0\t".toList ++ sq ++ ['\t'] ++ q ++ ['\n'] := by
  rw [defaults_text]
  simp [List.intercalate, List.intersperse]

theorem fmt_d_4 : fmt_d ((4 : Nat) : Int) = ['4'] := by decide
theorem fmt_d_0 : fmt_d ((0 : Nat) : Int) = ['0'] := by decide
theorem fmt_d_255 : fmt_d ((255 : Nat) : Int) = ['2', '5', '5'] := by decide
theorem fmt_d_int_0 : fmt_d (0 : Int) = ['0'] := by decide

theorem mandatory_fields_ctor (r : kseq_t) :
    mandatory_fields (sam_t.ctor (some r)) r
      = [r.name, ['4'], ['*'], ['0'], ['2', '5', '5'], ['*'], ['*'], ['0'], ['0'], r.seq,
          (r.qual.s).getD ['*']] := by
  unfold mandatory_fields
  simp only [sam_t.ctor]
  rw [fmt_d_4, fmt_d_0, fmt_d_255, fmt_d_int_0]

/-- C13. Record defaults describe an unmapped read: for every read `r` the
record `sam_t(r)` holds `r`, `flag = 4`, `pos = 0`, `mapq = 255`, `pnext = 0`,
`tlen = 0` and `rname = cigar = rnext = "*"`, and serializing it unchanged
writes exactly `<name>\t4\t*\t0\t255\t*\t*\t0\t0\t<seq>\t<qual or *>\n`, with
no optional tag. -/
theorem sam_t_defaults (r : kseq_t) :
    (sam_t.ctor (some r)).read = some r ∧
    (sam_t.ctor (some r)).flag = 4 ∧ (sam_t.ctor (some r)).pos = 0 ∧
    (sam_t.ctor (some r)).mapq = 255 ∧ (sam_t.ctor (some r)).pnext = 0 ∧
    (sam_t.ctor (some r)).tlen = 0 ∧ (sam_t.ctor (some r)).rname = "*".toList ∧
    (sam_t.ctor (some r)).cigar = "*".toList ∧ (sam_t.ctor (some r)).rnext = "*".toList ∧
    write_sam (sam_t.ctor (some r))
      = some (r.name ++ "\t4\t*\t0\t255\t*\t*\t0\t0\t".toList ++ r.seq ++ ['\t']
          ++ (r.qual.s).getD ['*'] ++ ['\n']) := by
  refine ⟨rfl, rfl, rfl, rfl, rfl, rfl, rfl, rfl, rfl, ?_⟩
  have hflag : (sam_t.ctor (some r)).flag &&& SAM_UNMAPPED ≠ 0 := by
    show (4 : Nat) &&& SAM_UNMAPPED ≠ 0
    decide
  rw [write_sam_unmapped _ r rfl hflag, mandatory_fields_ctor, line_of_defaults]

/-! ## Null reads -/

/-- Counterexample to C12 as stated: constructing a record from a null read
does not fail, it yields the default record with `read` null; and for that
record `write_sam` has no defined result, its first statement dereferencing
the null read, rather than an error returned to the caller. -/
theorem null_read_accepted :
    (sam_t.ctor none).read = none ∧ (sam_t.ctor none).flag = 4 ∧
    (sam_t.ctor none).mapq = 255 ∧ (sam_t.ctor none).rname = "*".toList ∧
    write_sam (sam_t.ctor none) = none :=
  ⟨rfl, rfl, rfl, rfl, rfl⟩

/-- C12 (as amended). A null read is not rejected: the constructor binds any
read reference, null included, without a check and leaves the defaults in
place; `write_sam` makes no check either, and has a defined result, a
written line, exactly when the read of the record is not null. -/
theorem null_read_unchecked :
    (∀ read_ : Option kseq_t,
      (sam_t.ctor read_).read = read_ ∧ (sam_t.ctor read_).flag = 4) ∧
    (∀ s : sam_t, write_sam s = none ↔ s.read = none) := by
  refine ⟨fun read_ => ⟨rfl, rfl⟩, fun s => ?_⟩
  constructor
  · intro h
    cases hr : s.read with
    | none => rfl
    | some r =>
      by_cases hflag : s.flag &&& SAM_UNMAPPED = 0
      · rw [write_sam_mapped s r hr hflag] at h; cases h
      · rw [write_sam_unmapped s r hr hflag] at h; cases h
  · intro h
    unfold write_sam
    rw [h]

/-! ## Flag of the raw-parameter form -/

/-- The first two fields of a raw-parameter line with `score != 0` are read
back as soon as the read name is tab-free. -/
theorem write_sam_raw_flag_at (score score2 min_score : Int) (ref_pos : Nat)
    (ref_seq_name : List Char) (r : kseq_t) (strand : Int)
    (cigar md : List Char) (mismatches : Nat) (r_next : List Char)
    (p_next : Nat) (t_len : Int) (hscore : score ≠ 0) (hname : tab_free r.name) :
    ∃ line, write_sam_raw score score2 min_score ref_pos ref_seq_name (some r) strand cigar md
        mismatches r_next p_next t_len = some line ∧
      (sam_fields line)[1]? = some (if strand ≠ 0 then ['1', '6'] else ['0']) := by
  refine ⟨_, write_sam_raw_mapped score score2 min_score ref_pos ref_seq_name r strand cigar md
    mismatches r_next p_next t_len hscore, ?_⟩
  have hsplit : raw_mandatory_fields score score2 ref_pos ref_seq_name r strand cigar r_next
        p_next t_len
      = [r.name, if strand ≠ 0 then ['1', '6'] else ['0']]
        ++ [ref_seq_name, fmt_d (to_size_t (ref_pos + 1)),
            fmt_d (double_to_uint32 (mapq_double score score2)), cigar, r_next,
            fmt_d (to_size_t (p_next + 1)), fmt_d t_len, r.seq, raw_qual r strand] := rfl
  have hH : ∀ f ∈ [r.name, if strand ≠ 0 then ['1', '6'] else ['0']], tab_free f := by
    intro f hf
    simp only [List.mem_cons, List.mem_singleton, List.not_mem_nil, or_false] at hf
    rcases hf with h | h <;> rw [h]
    · exact hname
    · by_cases hs : strand ≠ 0
      · rw [if_pos hs]; decide
      · rw [if_neg hs]; decide
  rw [hsplit, List.append_assoc,
    sam_fields_head _ _ hH (List.append_ne_nil_of_left_ne_nil (List.cons_ne_nil _ _) _) 1
      (Nat.lt_succ_self 1)]
  simp only [List.getElem?_cons_succ, List.getElem?_cons_zero]

/-- C16. Raw-parameter form, flag: for every call with `score != 0` (the read
name being tab-free) the FLAG field, the second field of the line, is exactly
`16` when `strand` is non-zero and exactly `0` when `strand` is zero; it is
the decimal text of `SAM_REVERSED` or of zero, no other bit being set. -/
theorem write_sam_raw_flag_field (score score2 min_score : Int) (ref_pos : Nat)
    (ref_seq_name : List Char) (r : kseq_t) (strand : Int)
    (cigar md : List Char) (mismatches : Nat) (r_next : List Char)
    (p_next : Nat) (t_len : Int) (hscore : score ≠ 0) (hname : tab_free r.name) :
    ∃ line, write_sam_raw score score2 min_score ref_pos ref_seq_name (some r) strand cigar md
        mismatches r_next p_next t_len = some line ∧
      (sam_fields line)[1]? = some (if strand ≠ 0 then "16".toList else "0".toList) ∧
      (sam_fields line)[1]?
        = some (Nat.toDigits 10 (if strand ≠ 0 then SAM_REVERSED else 0)) := by
  obtain ⟨line, hline, hf⟩ := write_sam_raw_flag_at score score2 min_score ref_pos ref_seq_name
    r strand cigar md mismatches r_next p_next t_len hscore hname
  refine ⟨line, hline, ?_, ?_⟩
  · rw [hf]
    by_cases hs : strand ≠ 0
    · rw [if_pos hs, if_pos hs]; decide
    · rw [if_neg hs, if_neg hs]; decide
  · rw [hf]
    by_cases hs : strand ≠ 0
    · rw [if_pos hs, if_pos hs]; decide
    · rw [if_neg hs, if_neg hs]; decide

/-- Witness of C16: calls on the sample read on the reverse and on the
forward strand write FLAG `16` and `0`. -/
theorem write_sam_raw_flag_field_witness :
    (∃ line, write_sam_raw 100 50 0 99 "chr1".toList (some read_fq) 1 "4M".toList "4".toList 0
        "*".toList 0 0 = some line ∧
      (sam_fields line)[1]? = some (if (1 : Int) ≠ 0 then "16".toList else "0".toList) ∧
      (sam_fields line)[1]?
        = some (Nat.toDigits 10 (if (1 : Int) ≠ 0 then SAM_REVERSED else 0))) ∧
    (∃ line, write_sam_raw 100 50 0 99 "chr1".toList (some read_fq) 0 "4M".toList "4".toList 0
        "*".toList 0 0 = some line ∧
      (sam_fields line)[1]? = some (if (0 : Int) ≠ 0 then "16".toList else "0".toList) ∧
      (sam_fields line)[1]?
        = some (Nat.toDigits 10 (if (0 : Int) ≠ 0 then SAM_REVERSED else 0))) :=
  ⟨write_sam_raw_flag_field 100 50 0 99 "chr1".toList read_fq 1 "4M".toList "4".toList 0
      "*".toList 0 0 (by decide) (by decide),
   write_sam_raw_flag_field 100 50 0 99 "chr1".toList read_fq 0 "4M".toList "4".toList 0
      "*".toList 0 0 (by decide) (by decide)⟩

/-! ## Parameters the raw-parameter form does not read -/

/-- C18. The raw-parameter form ignores `min_score`: two calls that agree on
every parameter but `min_score` write the same text (or are both without a
defined result, on a null read). -/
theorem write_sam_raw_min_score (score score2 min_score min_score2 : Int) (ref_pos : Nat)
    (ref_seq_name : List Char) (read : Option kseq_t) (strand : Int)
    (cigar md : List Char) (mismatches : Nat) (r_next : List Char)
    (p_next : Nat) (t_len : Int) :
    write_sam_raw score score2 min_score ref_pos ref_seq_name read strand cigar md
        mismatches r_next p_next t_len
      = write_sam_raw score score2 min_score2 ref_pos ref_seq_name read strand cigar md
        mismatches r_next p_next t_len := by
  unfold write_sam_raw
  rfl

/-! ## Quality in the record form -/

theorem flag_unmapped_xor_reversed (flag : Nat) :
    (flag ^^^ SAM_REVERSED) &&& SAM_UNMAPPED = flag &&& SAM_UNMAPPED := by
  have h : SAM_REVERSED &&& SAM_UNMAPPED = 0 := by decide
  rw [Nat.and_xor_distrib_right, h, Nat.xor_zero]

/-- The fields of a record-form line, split after the FLAG field: the read
name, the flag text, and whatever the rest of the line splits into.  The rest
depends on the flag only through its UNMAPPED bit. -/
theorem write_sam_fields_split (s : sam_t) (r : kseq_t) (hread : s.read = some r)
    (hname : tab_free r.name) :
    ∃ line, write_sam s = some line ∧
      sam_fields line = [r.name, fmt_d s.flag]
        ++ (List.intercalate ['\t']
            ([s.rname, fmt_d s.pos, fmt_d s.mapq, s.cigar, s.rnext, fmt_d s.pnext,
                fmt_d s.tlen, r.seq, (r.qual.s).getD ['*']]
              ++ (if s.flag &&& SAM_UNMAPPED = 0 then tag_fields s else []))).splitOn '\t' := by
  have hH : ∀ f ∈ [r.name, fmt_d s.flag], tab_free f := by
    intro f hf
    simp only [List.mem_cons, List.mem_singleton, List.not_mem_nil, or_false] at hf
    rcases hf with h | h <;> rw [h]
    · exact hname
    · exact fmt_d_tab_free _
  have hsplit : mandatory_fields s r
      = [r.name, fmt_d s.flag]
        ++ [s.rname, fmt_d s.pos, fmt_d s.mapq, s.cigar, s.rnext, fmt_d s.pnext,
            fmt_d s.tlen, r.seq, (r.qual.s).getD ['*']] := rfl
  by_cases hflag : s.flag &&& SAM_UNMAPPED = 0
  · refine ⟨_, write_sam_mapped s r hread hflag, ?_⟩
    rw [if_pos hflag, hsplit, List.append_assoc]
    unfold sam_fields
    rw [List.dropLast_concat]
    exact splitOn_intercalate_head _ _ hH
      (List.append_ne_nil_of_left_ne_nil (List.cons_ne_nil _ _) _)
  · refine ⟨_, write_sam_unmapped s r hread hflag, ?_⟩
    rw [if_neg hflag, List.append_nil, hsplit]
    unfold sam_fields
    rw [List.dropLast_concat]
    exact splitOn_intercalate_head _ _ hH (List.cons_ne_nil _ _)

theorem getElem?_after_flag (a x y : List Char) (R : List (List Char)) (k : Nat) (hk : k ≠ 1) :
    ([a, x] ++ R)[k]? = ([a, y] ++ R)[k]? := by
  match k with
  | 0 => rfl
  | 1 => exact absurd rfl hk
  | k + 2 => rfl

/-- C17. The record form never reverses quality: for a record with a quality
string `q` (strings before and including QUAL tab-free), the QUAL field is
`q` itself both for the record and for the same record with the REVERSE bit
flipped, and the two lines have the same fields everywhere but at FLAG. -/
theorem write_sam_qual_verbatim (s : sam_t) (r : kseq_t) (q : List Char)
    (hread : s.read = some r) (hq : r.qual.s = some q)
    (hname : tab_free r.name) (hrname : tab_free s.rname) (hcigar : tab_free s.cigar)
    (hrnext : tab_free s.rnext) (hseq : tab_free r.seq) (hqt : tab_free q) :
    ∃ line line2, write_sam s = some line ∧
      write_sam { s with flag := s.flag ^^^ SAM_REVERSED } = some line2 ∧
      (sam_fields line)[10]? = some q ∧ (sam_fields line2)[10]? = some q ∧
      ∀ k, k ≠ 1 → (sam_fields line)[k]? = (sam_fields line2)[k]? := by
  have hqual : ∀ q2, r.qual.s = some q2 → tab_free q2 := by
    intro q2 hq2
    rw [hq] at hq2
    cases hq2
    exact hqt
  obtain ⟨line, hline, hsp⟩ := write_sam_fields_split s r hread hname
  obtain ⟨line2, hline2, hsp2⟩ := write_sam_fields_split
    { s with flag := s.flag ^^^ SAM_REVERSED } r hread hname
  obtain ⟨l1, hl1, hf1⟩ := write_sam_fields_at s r hread hname hrname hcigar hrnext hseq hqual
  obtain ⟨l2, hl2, hf2⟩ := write_sam_fields_at { s with flag := s.flag ^^^ SAM_REVERSED } r
    hread hname hrname hcigar hrnext hseq hqual
  have e1 : l1 = line := by rw [hline] at hl1; exact (Option.some.inj hl1).symm
  have e2 : l2 = line2 := by rw [hline2] at hl2; exact (Option.some.inj hl2).symm
  subst e1 e2
  refine ⟨l1, l2, hline, hline2, ?_, ?_, ?_⟩
  · rw [hf1 10 (by decide), mandatory_fields_qual, hq]; rfl
  · rw [hf2 10 (by decide), mandatory_fields_qual, hq]; rfl
  · intro k hk
    rw [hsp, hsp2]
    have hbit : ({ s with flag := s.flag ^^^ SAM_REVERSED } : sam_t).flag &&& SAM_UNMAPPED
        = s.flag &&& SAM_UNMAPPED := flag_unmapped_xor_reversed s.flag
    rw [hbit]
    exact getElem?_after_flag _ _ _ _ k hk

/-- Witness of C17 on the sample mapped record, whose REVERSE bit is set. -/
theorem write_sam_qual_verbatim_witness :
    ∃ line line2, write_sam rec_mapped = some line ∧
      write_sam { rec_mapped with flag := rec_mapped.flag ^^^ SAM_REVERSED } = some line2 ∧
      (sam_fields line)[10]? = some "!!##".toList ∧
      (sam_fields line2)[10]? = some "!!##".toList ∧
      ∀ k, k ≠ 1 → (sam_fields line)[k]? = (sam_fields line2)[k]? :=
  write_sam_qual_verbatim rec_mapped read_fq "!!##".toList rfl rfl (by decide) (by decide)
    (by decide) (by decide) (by decide) (by decide)

/-! ## Range and monotonicity of the mapping quality -/

/-- The integer part taken by `write_sam_raw` is the value C defines,
wherever C defines one. -/
theorem mapq_value_some (score score2 : Int) (m : Nat)
    (h : mapq_value score score2 = some m) :
    double_to_uint32 (mapq_double score score2) = m := by
  unfold mapq_value at h
  split at h
  · rename_i hc
    cases h
    unfold double_to_uint32
    apply Nat.mod_eq_of_lt
    by_cases h0 : 0 ≤ mapq_double score score2
    · rw [Nat.floor_lt h0]
      exact_mod_cast hc.2.2
    · rw [Nat.floor_of_nonpos (le_of_not_le h0)]
      decide
  · cases h

/-- For 32-bit scores with `0 < S2 < S` the mapping quality is defined, is at
most 93, hence within `[0, 255]`, and is what the MAPQ field shows. -/
theorem mapq_value_in_range (S S2 : Int) (h0 : 0 < S2) (h1 : S2 < S) (h2 : S < 2147483648) :
    ∃ m, mapq_value S S2 = some m ∧ m ≤ 93 ∧
      fmt_d (double_to_uint32 (mapq_double S S2)) = Nat.toDigits 10 m := by
  obtain ⟨hlo, hhi⟩ := mapq_double_bounds S S2 h0 h1 h2
  have hS : (0 : ℝ) < (S : ℝ) := by exact_mod_cast (lt_trans h0 h1)
  have hS2 : (0 : ℝ) < (S2 : ℝ) := by exact_mod_cast h0
  have harg : 0 < 1 - ((|S - S2| : Int) : ℝ) / ((S : Int) : ℝ) := by
    have habs : |S - S2| = S - S2 := abs_of_pos (by omega)
    rw [habs, sub_pos, div_lt_one hS]
    push_cast
    linarith
  refine ⟨⌊mapq_double S S2⌋₊, ?_, ?_, fmt_d_mapq S S2 h0 h1 h2⟩
  · unfold mapq_value
    rw [if_pos ⟨harg, by linarith, by linarith⟩]
  · have : ⌊mapq_double S S2⌋₊ < 94 := by
      rw [Nat.floor_lt hlo]
      exact_mod_cast hhi
    omega

/-- C14 (the code at the failing input). For `score = 100` and `score2 = 0`
the argument of `log` is zero: the product is infinite and C defines no value
for its conversion to `uint32_t`, so no value in `[0, 255]` is computed. -/
theorem mapq_value_undefined : mapq_value 100 0 = none := by
  unfold mapq_value
  rw [if_neg]
  rintro ⟨h, -⟩
  norm_num at h

/-- C19. The mapping-quality estimate is monotone in the score gap: for a
32-bit score `S` and second-best scores `0 < A <= B <= S`, the MAPQ computed
for `(S, B)` is at most the MAPQ computed for `(S, A)`, and the MAPQ computed
for `(S, S)` is 0; the estimate being evaluated in exact arithmetic. -/
theorem mapq_monotone (S A B : Int) (hA : 0 < A) (hAB : A ≤ B) (hBS : B ≤ S)
    (hS : S < 2147483648) :
    double_to_uint32 (mapq_double S B) ≤ double_to_uint32 (mapq_double S A) ∧
    double_to_uint32 (mapq_double S S) = 0 := by
  have hB : 0 < B := lt_of_lt_of_le hA hAB
  have hS0 : 0 < S := lt_of_lt_of_le hB hBS
  have hAr : (0 : ℝ) < (A : ℝ) := by exact_mod_cast hA
  have hBr : (0 : ℝ) < (B : ℝ) := by exact_mod_cast hB
  have hSr : (0 : ℝ) < (S : ℝ) := by exact_mod_cast hS0
  have hABr : (A : ℝ) ≤ (B : ℝ) := by exact_mod_cast hAB
  obtain ⟨hloA, hhiA⟩ := mapq_double_bounds_le S A hA (le_trans hAB hBS) hS
  obtain ⟨hloB, hhiB⟩ := mapq_double_bounds_le S B hB hBS hS
  have hmono : mapq_double S B ≤ mapq_double S A := by
    rw [mapq_double_eq_le S A hA (le_trans hAB hBS), mapq_double_eq_le S B hB hBS]
    have hdiv : (S : ℝ) / (B : ℝ) ≤ (S : ℝ) / (A : ℝ) :=
      div_le_div_of_nonneg_left hSr.le hAr hABr
    have hlog := Real.log_le_log (div_pos hSr hBr) hdiv
    nlinarith
  have hfloor : ⌊mapq_double S B⌋₊ ≤ ⌊mapq_double S A⌋₊ := Nat.floor_mono hmono
  have hA94 : ⌊mapq_double S A⌋₊ < 94 := by
    rw [Nat.floor_lt hloA]; exact_mod_cast hhiA
  have hB94 : ⌊mapq_double S B⌋₊ < 94 := by
    rw [Nat.floor_lt hloB]; exact_mod_cast hhiB
  constructor
  · unfold double_to_uint32
    rw [Nat.mod_eq_of_lt (by omega), Nat.mod_eq_of_lt (by omega)]
    exact hfloor
  · have hSS : mapq_double S S = 0 := by
      rw [mapq_double_eq_le S S hS0 le_rfl, div_self hSr.ne', Real.log_one, mul_zero]
    unfold double_to_uint32
    rw [hSS, Nat.floor_zero]

/-- Witness of C19: score 100 with runner-up scores 50 and 75. -/
theorem mapq_monotone_witness :
    (0 : Int) < 50 ∧ (50 : Int) ≤ 75 ∧ (75 : Int) ≤ 100 ∧ (100 : Int) < 2147483648 ∧
    double_to_uint32 (mapq_double 100 75) ≤ double_to_uint32 (mapq_double 100 50) ∧
    double_to_uint32 (mapq_double 100 100) = 0 :=
  ⟨by decide, by decide, by decide, by decide,
   mapq_monotone 100 50 75 (by decide) (by decide) (by decide) (by decide)⟩

/-! ## Numeric rendering -/

/-- Within the range of a 32-bit `int` the record form writes every numeric
field in canonical decimal: digits only for the unsigned members, and for
`tlen` a minus sign exactly when it is negative. -/
theorem mandatory_fields_in_range (s : sam_t) (r : kseq_t)
    (hflag : s.flag < 2147483648) (hpos : s.pos < 2147483648)
    (hmapq : s.mapq < 2147483648) (hpnext : s.pnext < 2147483648)
    (htlen : -2147483648 ≤ s.tlen ∧ s.tlen < 2147483648) :
    mandatory_fields s r
      = [r.name, Nat.toDigits 10 s.flag, s.rname, Nat.toDigits 10 s.pos,
          Nat.toDigits 10 s.mapq, s.cigar, s.rnext, Nat.toDigits 10 s.pnext, dec s.tlen,
          r.seq, (r.qual.s).getD ['*']] := by
  unfold mandatory_fields
  rw [fmt_d_of_nat _ hflag, fmt_d_of_nat _ hpos, fmt_d_of_nat _ hmapq, fmt_d_of_nat _ hpnext,
    fmt_d_int32 _ htlen]

/-- C15 (the code at the failing input). On a record whose numeric members
exceed the range of a 32-bit `int`, the line written shows `flag`, `pnext`,
`as` and `zs` with a minus sign, `pos`, `mapq` and `nm` reduced modulo
`2 ^ 32`, and the positive `tlen` 2147483648 as `-2147483648`; and `%d` writes
the negative `long long` value -4294967296 as `0`, without a sign. -/
theorem write_sam_numbers_wrap :
    write_sam rec_wide
        = some ("r1\t-2147483648\tchr1\t0\t255\t4M\t*\t-1294967296\t-2147483648\tACGT\t!!##"
            ++ "\tAS:i:-1\tNM:i:1\tZS:i:-2147483648\tMD:Z:4\n").toList ∧
    fmt_d (-4294967296) = "0".toList := by
  constructor <;> decide

end Sam
